import Mathlib

/-!
Verification of `transcribe_split.py`: a shallow embedding of the
single-file utility `src/transcribe_split.py` (`main`, lines 29-131) and
proofs about it.

The program is a linear pipeline: CLI parsing, API-key check, input-file
check, audio load, chunk planning over millisecond offsets, a per-chunk
export / transcribe / write loop, and a final merged-transcript write.

Modelling decisions:
* machine integers are `Nat` / `Int` (Python integers are unbounded, so no
  wrap-around is involved);
* `os.path.abspath(sys.argv[1])` depends on the process working directory;
  the model takes the already-resolved absolute path as its first argument;
* the audio decoding library (`pydub`) is abstracted to the total duration
  in milliseconds, and an exported slice is recorded as its
  `(start_ms, end_ms)` window;
* the transcription service is an oracle `Nat → Except String String`
  giving, per 0-based chunk index, either the returned text or the message
  of the exception the client call raises;
* observable effects (prints, the audio load, file writes, file opens, the
  API call) are collected in an event trace, and the program outcome is an
  `Except` over the ways `main` can terminate abnormally.
-/

set_option autoImplicit false

namespace TranscribeSplit

/-! ## Characters and path helpers (POSIX behaviour of `os.path`) -/

/-- Split a character list at its last `/`: `some (head, tail)` with
`l = head ++ tail`, `head` ending in the last `/`, and no `/` in `tail`;
`none` when the list has no `/`. -/
def splitLastSlash : List Char → Option (List Char × List Char)
  | [] => none
  | c :: rest =>
    match splitLastSlash rest with
    | some (h, t) => some (c :: h, t)
    | none => if c = '/' then some (['/'], rest) else none

/-- Split a character list at its last `.`: `some (before, after)` with
`l = before ++ '.' :: after` and no `.` in `after`; `none` when there is
no dot. -/
def splitLastDot : List Char → Option (List Char × List Char)
  | [] => none
  | c :: rest =>
    match splitLastDot rest with
    | some (b, a) => some (c :: b, a)
    | none => if c = '.' then some ([], rest) else none

/-- Drop trailing `/` characters (Python's `head.rstrip('/')`). -/
def rstripSlash (l : List Char) : List Char :=
  (l.reverse.dropWhile (fun c => c = '/')).reverse

/-- Embeds `os.path.basename` (POSIX): the part after the last `/`. -/
def pyBasename (p : String) : String :=
  match splitLastSlash p.data with
  | some (_, t) => String.mk t
  | none => p

/-- Embeds `os.path.dirname` (POSIX): everything up to the last `/`, with
trailing slashes stripped unless the head consists of slashes only. -/
def pyDirname (p : String) : String :=
  match splitLastSlash p.data with
  | some (h, _) => if h.all (fun c => c = '/') then String.mk h else String.mk (rstripSlash h)
  | none => ""

/-- Embeds the stem part of `os.path.splitext` applied to a slash-free
name: cut at the last dot provided some earlier character is not a dot
(so `".bashrc"` and `"..."` keep their dots). -/
def stemChars (l : List Char) : List Char :=
  match splitLastDot l with
  | some (b, _) => if b.any (fun c => c ≠ '.') then b else l
  | none => l

/-- Embeds `os.path.splitext(os.path.basename(p))[0]` (line 61 of the
source). -/
def stem (p : String) : String :=
  String.mk (stemChars (pyBasename p).data)

/-- Embeds `os.path.join` for two components (POSIX): an absolute second
component wins; otherwise a `/` separator is inserted unless the first
component is empty or already ends in `/`. -/
def pjoin (a b : String) : String :=
  if b.data.head? = some '/' then b
  else if a.data = [] ∨ a.data.getLast? = some '/' then a ++ b
  else a ++ "/" ++ b

/-! ## Number parsing and formatting -/

/-- Value of a nonempty all-digit character list, `none` otherwise. -/
def digitsVal : List Char → Option Nat
  | [] => none
  | [c] => if c.isDigit then some (c.toNat - '0'.toNat) else none
  | c :: rest =>
    match digitsVal rest, c.isDigit with
    | some v, true => some ((c.toNat - '0'.toNat) * 10 ^ rest.length + v)
    | _, _ => none

/-- Embeds Python's `int(s)` on the sign-plus-digits fragment it accepts
(the model omits surrounding whitespace and `_` digit separators, which
the program's CLI never relies on): `some k` when the string is an
optionally signed decimal numeral, `none` when `int` raises `ValueError`. -/
def pyInt? (s : String) : Option Int :=
  match s.data with
  | '-' :: rest => (digitsVal rest).map (fun n => -(n : Int))
  | '+' :: rest => (digitsVal rest).map (fun n => (n : Int))
  | l => (digitsVal l).map (fun n => (n : Int))

/-- Round `num / den` to the nearest integer, ties to even (`den > 0`). -/
def roundHalfEven (num den : Nat) : Nat :=
  let q := num / den
  let r := num % den
  if 2 * r < den then q
  else if den < 2 * r then q + 1
  else if q % 2 = 0 then q else q + 1

/-- Embeds the minute rendering `f"{ms/60000:.1f}"` used throughout the
source: the value `ms / 60000` to one decimal place, i.e. `ms / 6000`
tenths of a minute rounded half-to-even. (Python formats the nearest
binary double of `ms/60000`; the two agree away from ties that binary
doubles cannot represent exactly, and every value these proofs evaluate
is exact.) -/
def fmt1 (ms : Nat) : String :=
  let t := roundHalfEven ms 6000
  toString (t / 10) ++ "." ++ toString (t % 10)

/-- Applies `fmt1` to an `Int` offset. Window offsets are nonnegative on every
reachable path (the chunk loop only runs when the chunk length is
positive), so only the `toNat` branch is ever exercised. -/
def fmtI (ms : Int) : String := fmt1 ms.toNat

/-! ## The chunk planner (lines 74-84 of the source) -/

/-- Embeds `chunk_ms = chunk_minutes * 60 * 1000` (line 74). -/
def chunkMsOf (chunkMinutes : Nat) : Nat := chunkMinutes * 60 * 1000

/-- Embeds `num_chunks = math.ceil(duration_ms / chunk_ms)` (line 75) for
a positive chunk length: the ceiling of `durationMs / chunkMsOf cm` as a
natural number. -/
def numChunksOf (durationMs cm : Nat) : Nat :=
  (durationMs + chunkMsOf cm - 1) / chunkMsOf cm

/-- Embeds the window of chunk `i` (0-based), lines 83-84:
`start_ms = i * chunk_ms`, `end_ms = min((i + 1) * chunk_ms, duration_ms)`. -/
def window (cm i durationMs : Nat) : Nat × Nat :=
  (i * chunkMsOf cm, min ((i + 1) * chunkMsOf cm) durationMs)

/-- The chunk plan: the windows of `for i in range(num_chunks)`. -/
def plan (durationMs cm : Nat) : List (Nat × Nat) :=
  (List.range (numChunksOf durationMs cm)).map (fun i => window cm i durationMs)

/-! ## Run model: events, errors, inputs -/

/-- Contents written to a file: an exported audio slice (recorded by its
window) or UTF-8 text. -/
inductive FileContent where
  | audioSlice (startMs endMs : Int)
  | text (s : String)
  deriving DecidableEq, Repr

/-- Observable effects of a run, in program order. -/
inductive Ev where
  | print (s : String)
  | loadAudio (path : String)
  | writeFile (path : String) (content : FileContent)
  | openRead (path : String)
  | apiCall (idx : Nat)
  deriving DecidableEq, Repr

/-- The ways `main` terminates abnormally: `sys.exit(1)` after a usage
message, the missing-credential `RuntimeError`, `FileNotFoundError`,
`ZeroDivisionError` from `duration_ms / chunk_ms`, and an exception from
the transcription call, carried with exactly its own message. -/
inductive Err where
  | usage
  | config
  | notFound
  | zeroDiv
  | api (cause : String)
  deriving DecidableEq, Repr

/-- Inputs of one run: `args` is `sys.argv[1:]`, with the first element
already resolved by `os.path.abspath`; `apiKey` is
`os.getenv("OPENAI_API_KEY")`; `audioExists` is `os.path.exists` on the
audio path; `durationMs` is `len(AudioSegment.from_file(...))`; `tr` is
the transcription oracle per 0-based chunk index. -/
structure Inp where
  args : List String
  apiKey : Option String
  audioExists : Bool
  durationMs : Nat
  tr : Nat → Except String String

/-- Embeds lines 38-45: `sys.argv[2]` parsed by `int` when present,
default 20; `.error` is the `ValueError` path. Extra arguments are
ignored, as in the source. -/
def parseChunkArg : List String → Except Unit Int
  | [] => .ok 20
  | a :: _ =>
    match pyInt? a with
    | some k => .ok k
    | none => .error ()

/-- Embeds the truthiness test `if not api_key` (line 49): the variable
must be present and nonempty. -/
def keyOk : Option String → Bool
  | none => false
  | some s => !(s = "")

/-- Computes `math.ceil(a / b)` on integers with `b ≠ 0`, via floor division:
`⌈a / b⌉ = -⌊-a / b⌋`. -/
def ceilDivInt (a b : Int) : Int := -((-a).fdiv b)

/-- Name of chunk `part`'s audio file, `f"{basename}_part_{part_num}.mp3"`
(line 93). -/
def chunkName (base : String) (part : Nat) : String :=
  base ++ ("_part_" ++ toString part ++ ".mp3")

/-- Path of chunk `part`'s audio file (line 94). -/
def chunkPath (folder base : String) (part : Nat) : String :=
  pjoin folder (chunkName base part)

/-- Name of chunk `part`'s transcript file,
`f"{basename}_part_{part_num}_transcript.txt"` (line 113). -/
def partTxtName (base : String) (part : Nat) : String :=
  base ++ ("_part_" ++ toString part ++ "_transcript.txt")

/-- Path of chunk `part`'s transcript file (line 114). -/
def partTxtPath (folder base : String) (part : Nat) : String :=
  pjoin folder (partTxtName base part)

/-- Path of the merged transcript,
`os.path.join(folder, f"{basename}_full_transcript.txt")` (line 126). -/
def fullPath (folder base : String) : String :=
  pjoin folder (base ++ "_full_transcript.txt")

/-- The block appended to `full_transcript_parts` for chunk `part`
(lines 121-123):
`f"### Part {part_num} ({start_min:.1f}–{end_min:.1f} min)\n\n{text}"`. -/
def mergedPartStr (part : Nat) (startMs endMs : Int) (text : String) : String :=
  "### Part " ++ toString part ++ " (" ++ fmtI startMs ++ "–" ++ fmtI endMs
    ++ " min)" ++ "\n\n" ++ text

/-- Events of one loop iteration up to and including the transcription
call (lines 89-108): part banner, export print, audio-slice write,
transcription print, chunk-file open, API call. -/
def preBlock (folder base : String) (chunkMs duration : Int) (i : Nat) : List Ev :=
  let part := i + 1
  let startMs : Int := (i : Int) * chunkMs
  let endMs : Int := min (((i : Int) + 1) * chunkMs) duration
  [ .print ("=== Part " ++ toString part ++ ": " ++ fmtI startMs ++ "–"
      ++ fmtI endMs ++ " min ===")
  , .print ("Exporting " ++ chunkName base part ++ " ...")
  , .writeFile (chunkPath folder base part) (.audioSlice startMs endMs)
  , .print "Transcribing with OpenAI ..."
  , .openRead (chunkPath folder base part)
  , .apiCall i ]

/-- Events after a successful transcription of chunk `i` (lines 112-119):
the per-chunk transcript write and the saved-transcript print. -/
def postBlock (folder base : String) (text : String) (i : Nat) : List Ev :=
  let part := i + 1
  [ .writeFile (partTxtPath folder base part) (.text text)
  , .print ("Saved transcript -> " ++ partTxtName base part ++ "\n") ]

/-- Embeds the chunk loop (lines 81-123) over a list of 0-based chunk
indices: per index, the export / transcribe / write effects; on a
transcription failure the loop stops with the raised exception; on
success it returns the accumulated `full_transcript_parts`. -/
def loopRun (folder base : String) (chunkMs duration : Int)
    (tr : Nat → Except String String) : List Nat → List Ev × Except Err (List String)
  | [] => ([], .ok [])
  | i :: rest =>
    let pre := preBlock folder base chunkMs duration i
    match tr i with
    | .error c => (pre, .error (.api c))
    | .ok text =>
      let post := postBlock folder base text i
      match loopRun folder base chunkMs duration tr rest with
      | (evs, .error e) => (pre ++ post ++ evs, .error e)
      | (evs, .ok parts) =>
        (pre ++ post ++ evs,
         .ok (mergedPartStr (i + 1) ((i : Int) * chunkMs)
               (min (((i : Int) + 1) * chunkMs) duration) text :: parts))

/-- Events between the input checks and the chunk computation
(lines 63-71): the info prints and the audio load. -/
def preEvents (audioPath : String) (durationMs : Nat) : List Ev :=
  [ .print ("Audio file: " ++ audioPath)
  , .print ("Output folder: " ++ pyDirname audioPath)
  , .print "\nLoading audio file..."
  , .loadAudio audioPath
  , .print ("Total audio length: " ++ fmt1 durationMs ++ " minutes") ]

/-- Embeds lines 60-131: everything after the argument, credential, and
existence checks have passed. `ZeroDivisionError` is raised by
`duration_ms / chunk_ms` when the chunk length is zero; otherwise the
loop runs over `range(num_chunks)` and, on overall success, the merged
transcript is written. -/
def runValid (audioPath : String) (chunkMinutes : Int) (durationMs : Nat)
    (tr : Nat → Except String String) : List Ev × Except Err Unit :=
  let folder := pyDirname audioPath
  let base := stem audioPath
  let chunkMs : Int := chunkMinutes * 60 * 1000
  if chunkMs = 0 then (preEvents audioPath durationMs, .error .zeroDiv)
  else
    let numChunks : Int := ceilDivInt (durationMs : Int) chunkMs
    let evs1 := preEvents audioPath durationMs
      ++ [ .print ("Splitting into " ++ toString numChunks ++ " chunk(s) of ~"
             ++ toString chunkMinutes ++ " minutes each.\n") ]
    match loopRun folder base chunkMs (durationMs : Int) tr (List.range numChunks.toNat) with
    | (levs, .error e) => (evs1 ++ levs, .error e)
    | (levs, .ok parts) =>
      (evs1 ++ levs
        ++ [ .writeFile (fullPath folder base) (.text (String.intercalate "\n\n" parts))
           , .print "Done."
           , .print ("Full transcript saved to: " ++ fullPath folder base) ],
       .ok ())

/-- Embeds `main` (lines 29-131): argument check and usage exit, chunk
argument parsing, credential check, input existence check, then the
processing pipeline. -/
def run (inp : Inp) : List Ev × Except Err Unit :=
  match inp.args with
  | [] => ([.print "Usage: python transcribe_split.py path/to/audio.mp3 [chunk_minutes]"],
           .error .usage)
  | audioPath :: rest =>
    match parseChunkArg rest with
    | .error _ => ([.print "chunk_minutes must be an integer (e.g. 20)"], .error .usage)
    | .ok chunkMinutes =>
      if keyOk inp.apiKey then
        if inp.audioExists then runValid audioPath chunkMinutes inp.durationMs inp.tr
        else ([], .error .notFound)
      else ([], .error .config)

/-! ## Derived observations used by the theorems -/

/-- Holds exactly on console prints (`stdout` only; no file system
effect). -/
def isPrint : Ev → Bool
  | .print _ => true
  | _ => false

/-- Holds on the transcription call for chunk `i`. -/
def isApiCallTo (i : Nat) : Ev → Bool
  | .apiCall j => j == i
  | _ => false

/-- How many transcription calls a trace makes for chunk `i`. -/
def apiCallCount (evs : List Ev) (i : Nat) : Nat :=
  (evs.filter (isApiCallTo i)).length

/-- The event trace of the chunk loop over indices `l` when every
transcription succeeds, chunk `i` returning text `t i`. -/
def okEvents (folder base : String) (chunkMs duration : Int) (t : Nat → String) :
    List Nat → List Ev
  | [] => []
  | i :: rest =>
    preBlock folder base chunkMs duration i ++ postBlock folder base (t i) i
      ++ okEvents folder base chunkMs duration t rest

/-- The `full_transcript_parts` accumulated by the chunk loop over
indices `l` when every transcription succeeds, chunk `i` returning text
`t i`. -/
def okParts (chunkMs duration : Int) (t : Nat → String) : List Nat → List String
  | [] => []
  | i :: rest =>
    mergedPartStr (i + 1) ((i : Int) * chunkMs) (min (((i : Int) + 1) * chunkMs) duration) (t i)
      :: okParts chunkMs duration t rest

/-- Modelled from the spec's words for the C2 refinement comparison: a
per-chunk block of the merged transcript, "a header line of the form
`Part <index> (<start_min>–<end_min> min)` (minutes rendered to one
decimal place) followed by a blank line and then that chunk's
transcription text verbatim". -/
def specMergedBlock (part : Nat) (startMs endMs : Nat) (text : String) : String :=
  "Part " ++ toString part ++ " (" ++ fmt1 startMs ++ "–" ++ fmt1 endMs
    ++ " min)" ++ "\n\n" ++ text

/-! ## Refined run model with fallible file operations

The model above treats the file system as infallible, which is enough
for every claim whose scenario conditions only on transcription
outcomes. The source, however, also aborts when a file operation itself
raises: `chunk.export` (line 97), `open(chunk_path, "rb")` (line 101),
the per-chunk transcript write (lines 116-117) and the merged write
(lines 127-128) are all unguarded, and an `OSError` from any of them
propagates exactly like a transcription-call failure. The refinement
below gives each of those operations an outcome; `runF_total` proves it
collapses to `run` when no file operation fails. -/

/-- Holds the fallible file operations of the source, each identified by
its call site (and 0-based chunk index where applicable): the chunk
export at line 97, the chunk-file open at line 101, the per-chunk
transcript write at lines 116-117, and the merged-transcript write at
lines 127-128. -/
inductive FsOp where
  | exportChunk (i : Nat)
  | openChunk (i : Nat)
  | writeChunkText (i : Nat)
  | writeMerged
  deriving DecidableEq, Repr

/-- Abnormal terminations of the refined model: the base model's
outcomes plus `os`, an `OSError` raised by a file operation and
propagated with exactly its own message. `api` and `os` stay distinct
because the source surfaces distinct exception classes. -/
inductive ErrF where
  | usage
  | config
  | notFound
  | zeroDiv
  | api (cause : String)
  | os (cause : String)
  deriving DecidableEq, Repr

/-- Embeds the base model's outcomes into the refined model's. -/
def liftErr : Err → ErrF
  | .usage => .usage
  | .config => .config
  | .notFound => .notFound
  | .zeroDiv => .zeroDiv
  | .api c => .api c

/-- Inputs of one refined run: the fields of `Inp` plus `fs`, the file
system's answer per operation — `none` when the operation succeeds,
`some msg` when it raises an `OSError` with message `msg`. -/
structure InpF where
  args : List String
  apiKey : Option String
  audioExists : Bool
  durationMs : Nat
  tr : Nat → Except String String
  fs : FsOp → Option String

/-- Embeds the chunk loop (lines 81-123) with fallible file operations.
Per chunk `i`, in source order: the part banner and export print, then
the export (line 97; on failure only those two prints have happened),
the transcription print and the chunk-file open (line 101), the
transcription call (lines 103-108), and the transcript write
(lines 116-117). The first failure aborts the loop with the raised
exception; a fully successful chunk contributes exactly the base
model's `preBlock ++ postBlock`. -/
def loopRunF (folder base : String) (chunkMs duration : Int)
    (tr : Nat → Except String String) (fs : FsOp → Option String) :
    List Nat → List Ev × Except ErrF (List String)
  | [] => ([], .ok [])
  | i :: rest =>
    let pre := preBlock folder base chunkMs duration i
    match fs (.exportChunk i) with
    | some c => (pre.take 2, .error (.os c))
    | none =>
      match fs (.openChunk i) with
      | some c => (pre.take 4, .error (.os c))
      | none =>
        match tr i with
        | .error c => (pre, .error (.api c))
        | .ok text =>
          match fs (.writeChunkText i) with
          | some c => (pre, .error (.os c))
          | none =>
            let post := postBlock folder base text i
            match loopRunF folder base chunkMs duration tr fs rest with
            | (evs, .error e) => (pre ++ post ++ evs, .error e)
            | (evs, .ok parts) =>
              (pre ++ post ++ evs,
               .ok (mergedPartStr (i + 1) ((i : Int) * chunkMs)
                     (min (((i : Int) + 1) * chunkMs) duration) text :: parts))

/-- Embeds lines 60-131 with fallible file operations: as `runValid`,
except that the chunk loop runs under `fs` and the merged write
(lines 127-128) may itself fail, aborting with its `OSError` after the
loop's events. -/
def runValidF (audioPath : String) (chunkMinutes : Int) (durationMs : Nat)
    (tr : Nat → Except String String) (fs : FsOp → Option String) :
    List Ev × Except ErrF Unit :=
  let folder := pyDirname audioPath
  let base := stem audioPath
  let chunkMs : Int := chunkMinutes * 60 * 1000
  if chunkMs = 0 then (preEvents audioPath durationMs, .error .zeroDiv)
  else
    let numChunks : Int := ceilDivInt (durationMs : Int) chunkMs
    let evs1 := preEvents audioPath durationMs
      ++ [ .print ("Splitting into " ++ toString numChunks ++ " chunk(s) of ~"
             ++ toString chunkMinutes ++ " minutes each.\n") ]
    match loopRunF folder base chunkMs (durationMs : Int) tr fs
        (List.range numChunks.toNat) with
    | (levs, .error e) => (evs1 ++ levs, .error e)
    | (levs, .ok parts) =>
      match fs .writeMerged with
      | some c => (evs1 ++ levs, .error (.os c))
      | none =>
        (evs1 ++ levs
          ++ [ .writeFile (fullPath folder base)
                 (.text (String.intercalate "\n\n" parts))
             , .print "Done."
             , .print ("Full transcript saved to: " ++ fullPath folder base) ],
         .ok ())

/-- Embeds `main` (lines 29-131) with fallible file operations: the same
argument, credential and existence checks as `run`, then the refined
pipeline. -/
def runF (inp : InpF) : List Ev × Except ErrF Unit :=
  match inp.args with
  | [] => ([.print "Usage: python transcribe_split.py path/to/audio.mp3 [chunk_minutes]"],
           .error .usage)
  | audioPath :: rest =>
    match parseChunkArg rest with
    | .error _ => ([.print "chunk_minutes must be an integer (e.g. 20)"], .error .usage)
    | .ok chunkMinutes =>
      if keyOk inp.apiKey then
        if inp.audioExists then runValidF audioPath chunkMinutes inp.durationMs inp.tr inp.fs
        else ([], .error .notFound)
      else ([], .error .config)

/-! ## Planner lemmas -/

theorem chunkMs_pos {cm : Nat} (h : 1 ≤ cm) : 0 < chunkMsOf cm := by
  unfold chunkMsOf
  exact Nat.mul_pos (Nat.mul_pos h (by norm_num)) (by norm_num)

theorem numChunksOf_eq {d cm : Nat} (h : 1 ≤ cm) (hd : 0 < d) :
    numChunksOf d cm = (d - 1) / chunkMsOf cm + 1 := by
  have hc := chunkMs_pos h
  unfold numChunksOf
  have he : d + chunkMsOf cm - 1 = (d - 1) + chunkMsOf cm := by omega
  rw [he, Nat.add_div_right _ hc]

theorem numChunksOf_zero {cm : Nat} (h : 1 ≤ cm) : numChunksOf 0 cm = 0 := by
  have hc := chunkMs_pos h
  unfold numChunksOf
  exact Nat.div_eq_of_lt (by omega)

theorem le_numChunks_mul {d cm : Nat} (h : 1 ≤ cm) :
    d ≤ numChunksOf d cm * chunkMsOf cm := by
  rcases Nat.eq_zero_or_pos d with hd | hd
  · omega
  · have hc := chunkMs_pos h
    rw [numChunksOf_eq h hd]
    have h2 : (d - 1) / chunkMsOf cm < (d - 1) / chunkMsOf cm + 1 := Nat.lt_succ_self _
    have h3 := (Nat.div_lt_iff_lt_mul hc).mp h2
    omega

theorem numChunks_le {d cm : Nat} (m : Nat) (h : 1 ≤ cm)
    (hm : d ≤ m * chunkMsOf cm) : numChunksOf d cm ≤ m := by
  rcases Nat.eq_zero_or_pos d with hd | hd
  · subst hd
    simp [numChunksOf_zero h]
  · have hc := chunkMs_pos h
    rw [numChunksOf_eq h hd]
    have h1 : d - 1 < m * chunkMsOf cm := by omega
    have h2 := (Nat.div_lt_iff_lt_mul hc).mpr h1
    omega

theorem succ_mul_lt_of_lt_numChunks {d cm i : Nat} (h : 1 ≤ cm)
    (hi : i + 1 < numChunksOf d cm) : (i + 1) * chunkMsOf cm < d := by
  by_contra hle
  have := numChunks_le (i + 1) h (Nat.not_lt.mp hle)
  omega

theorem plan_length (d cm : Nat) : (plan d cm).length = numChunksOf d cm := by
  simp [plan]

theorem plan_getD {d cm i : Nat} (hi : i < numChunksOf d cm) :
    (plan d cm).getD i (0, 0) = window cm i d := by
  unfold plan
  rw [List.getD_eq_getElem?_getD]
  simp [hi]

theorem mem_plan_iff {d cm : Nat} {w : Nat × Nat} :
    w ∈ plan d cm ↔ ∃ i, i < numChunksOf d cm ∧ w = window cm i d := by
  simp only [plan, List.mem_map, List.mem_range]
  constructor
  · rintro ⟨i, hi, rfl⟩; exact ⟨i, hi, rfl⟩
  · rintro ⟨i, hi, rfl⟩; exact ⟨i, hi, rfl⟩

theorem window_cover {d cm : Nat} (h : 1 ≤ cm) {t : Nat} (ht : t < d) :
    t / chunkMsOf cm < numChunksOf d cm ∧
    (window cm (t / chunkMsOf cm) d).1 ≤ t ∧ t < (window cm (t / chunkMsOf cm) d).2 := by
  have hc := chunkMs_pos h
  have hn : t / chunkMsOf cm < numChunksOf d cm :=
    (Nat.div_lt_iff_lt_mul hc).mpr (lt_of_lt_of_le ht (le_numChunks_mul h))
  refine ⟨hn, Nat.div_mul_le_self t _, ?_⟩
  have e2 : t % chunkMsOf cm < chunkMsOf cm := Nat.mod_lt _ hc
  have e3 : t % chunkMsOf cm + t / chunkMsOf cm * chunkMsOf cm = t := Nat.mod_add_div' t _
  have hlt : t < (t / chunkMsOf cm + 1) * chunkMsOf cm := by
    rw [Nat.add_mul, Nat.one_mul]; omega
  exact lt_min hlt ht

theorem window_unique {d cm i : Nat} {t : Nat}
    (h1 : (window cm i d).1 ≤ t) (h2 : t < (window cm i d).2) :
    t / chunkMsOf cm = i := by
  unfold window at h1 h2
  have h2' : t < (i + 1) * chunkMsOf cm := lt_of_lt_of_le h2 (min_le_left _ _)
  exact Nat.div_eq_of_lt_le h1 h2'

/-- C1. For every `duration_ms ≥ 0` and `chunk_minutes ≥ 1`, the
chunk planner produces the windows
`[i*chunk_ms, min((i+1)*chunk_ms, duration_ms))` for `i` below
`num_chunks` with `chunk_ms = chunk_minutes*60000`; the window count is
`num_chunks = ⌈duration_ms / chunk_ms⌉` (characterised as the least `m`
with `duration_ms ≤ m * chunk_ms`), which is `0` when `duration_ms = 0`;
the windows are contiguous, pairwise non-overlapping, and cover exactly
`[0, duration_ms)`. -/
theorem planner_windows_correct (d cm : Nat) (h : 1 ≤ cm) :
    (plan d cm).length = numChunksOf d cm
    ∧ (d = 0 → numChunksOf d cm = 0)
    ∧ (d ≤ numChunksOf d cm * chunkMsOf cm
        ∧ ∀ m : Nat, d ≤ m * chunkMsOf cm → numChunksOf d cm ≤ m)
    ∧ (∀ i, i < numChunksOf d cm →
        (plan d cm).getD i (0, 0)
          = (i * chunkMsOf cm, min ((i + 1) * chunkMsOf cm) d))
    ∧ (∀ i, i + 1 < numChunksOf d cm →
        ((plan d cm).getD i (0, 0)).2 = ((plan d cm).getD (i + 1) (0, 0)).1)
    ∧ (∀ t, t < d ↔ ∃ w ∈ plan d cm, w.1 ≤ t ∧ t < w.2)
    ∧ (∀ i j, i < numChunksOf d cm → j < numChunksOf d cm → i ≠ j → ∀ t,
        ¬((((plan d cm).getD i (0, 0)).1 ≤ t ∧ t < ((plan d cm).getD i (0, 0)).2)
          ∧ (((plan d cm).getD j (0, 0)).1 ≤ t ∧ t < ((plan d cm).getD j (0, 0)).2))) := by
  refine ⟨plan_length d cm, ?_, ⟨le_numChunks_mul h, fun m hm => numChunks_le m h hm⟩,
    ?_, ?_, ?_, ?_⟩
  · rintro rfl; exact numChunksOf_zero h
  · intro i hi
    rw [plan_getD hi]; rfl
  · intro i hi
    rw [plan_getD (by omega), plan_getD hi]
    unfold window
    have := succ_mul_lt_of_lt_numChunks h hi
    simp [min_eq_left (le_of_lt this)]
  · intro t
    constructor
    · intro ht
      obtain ⟨hn, h1, h2⟩ := window_cover h ht
      exact ⟨window cm (t / chunkMsOf cm) d, mem_plan_iff.mpr ⟨_, hn, rfl⟩, h1, h2⟩
    · rintro ⟨w, hw, h1, h2⟩
      obtain ⟨i, hi, rfl⟩ := mem_plan_iff.mp hw
      exact lt_of_lt_of_le h2 (min_le_right _ _)
  · intro i j hi hj hij t hcon
    obtain ⟨⟨hi1, hi2⟩, hj1, hj2⟩ := hcon
    rw [plan_getD hi] at hi1 hi2
    rw [plan_getD hj] at hj1 hj2
    have e1 := window_unique hi1 hi2
    have e2 := window_unique hj1 hj2
    omega

/-- C1 (witness). The planner property instantiated at the spec's
60-minute, 20-minute-chunk scenario. -/
theorem planner_windows_correct_witness :
    (plan 3600000 20).length = numChunksOf 3600000 20
    ∧ (3600000 = 0 → numChunksOf 3600000 20 = 0)
    ∧ (3600000 ≤ numChunksOf 3600000 20 * chunkMsOf 20
        ∧ ∀ m : Nat, 3600000 ≤ m * chunkMsOf 20 → numChunksOf 3600000 20 ≤ m)
    ∧ (∀ i, i < numChunksOf 3600000 20 →
        (plan 3600000 20).getD i (0, 0)
          = (i * chunkMsOf 20, min ((i + 1) * chunkMsOf 20) 3600000))
    ∧ (∀ i, i + 1 < numChunksOf 3600000 20 →
        ((plan 3600000 20).getD i (0, 0)).2 = ((plan 3600000 20).getD (i + 1) (0, 0)).1)
    ∧ (∀ t, t < 3600000 ↔ ∃ w ∈ plan 3600000 20, w.1 ≤ t ∧ t < w.2)
    ∧ (∀ i j, i < numChunksOf 3600000 20 → j < numChunksOf 3600000 20 → i ≠ j → ∀ t,
        ¬((((plan 3600000 20).getD i (0, 0)).1 ≤ t ∧ t < ((plan 3600000 20).getD i (0, 0)).2)
          ∧ (((plan 3600000 20).getD j (0, 0)).1 ≤ t
              ∧ t < ((plan 3600000 20).getD j (0, 0)).2))) :=
  planner_windows_correct 3600000 20 (by decide)

/-- C5. For every `duration_ms ≥ 0` and `chunk_minutes ≥ 1`, every
planned window is at most `chunk_minutes*60000` long, and every window
except possibly the last is exactly `chunk_minutes*60000` long. -/
theorem window_length_bounds (d cm : Nat) (h : 1 ≤ cm) :
    (∀ i, i < numChunksOf d cm →
        ((plan d cm).getD i (0, 0)).2 - ((plan d cm).getD i (0, 0)).1 ≤ chunkMsOf cm)
    ∧ (∀ i, i + 1 < numChunksOf d cm →
        ((plan d cm).getD i (0, 0)).2 - ((plan d cm).getD i (0, 0)).1 = chunkMsOf cm) := by
  constructor
  · intro i hi
    rw [plan_getD hi]
    unfold window
    have h1 : min ((i + 1) * chunkMsOf cm) d ≤ (i + 1) * chunkMsOf cm := min_le_left _ _
    have h2 : (i + 1) * chunkMsOf cm = i * chunkMsOf cm + chunkMsOf cm := by ring
    simp only
    omega
  · intro i hi
    rw [plan_getD (by omega)]
    unfold window
    have h1 := succ_mul_lt_of_lt_numChunks h hi
    have h2 : (i + 1) * chunkMsOf cm = i * chunkMsOf cm + chunkMsOf cm := by ring
    simp only [min_eq_left (le_of_lt h1)]
    omega

/-- C5 (witness). The window-length bounds at the spec's 60-minute,
20-minute-chunk scenario. -/
theorem window_length_bounds_witness :
    (∀ i, i < numChunksOf 3600000 20 →
        ((plan 3600000 20).getD i (0, 0)).2 - ((plan 3600000 20).getD i (0, 0)).1
          ≤ chunkMsOf 20)
    ∧ (∀ i, i + 1 < numChunksOf 3600000 20 →
        ((plan 3600000 20).getD i (0, 0)).2 - ((plan 3600000 20).getD i (0, 0)).1
          = chunkMsOf 20) :=
  window_length_bounds 3600000 20 (by decide)

/-! ## Chunk-loop lemmas -/

theorem loopRun_ok {folder base : String} {chunkMs duration : Int}
    {tr : Nat → Except String String} {t : Nat → String} {l : List Nat}
    (h : ∀ i ∈ l, tr i = .ok (t i)) :
    loopRun folder base chunkMs duration tr l
      = (okEvents folder base chunkMs duration t l,
         .ok (okParts chunkMs duration t l)) := by
  induction l with
  | nil => rfl
  | cons i rest ih =>
    have hi : tr i = .ok (t i) := h i (List.mem_cons_self _ _)
    have hrest := ih (fun j hj => h j (List.mem_cons_of_mem _ hj))
    simp [loopRun, hi, hrest, okEvents, okParts]

theorem loopRun_fail {folder base : String} {chunkMs duration : Int}
    {tr : Nat → Except String String} {t : Nat → String} {c : String}
    {l₁ : List Nat} {i : Nat} (l₂ : List Nat)
    (h1 : ∀ j ∈ l₁, tr j = .ok (t j)) (hi : tr i = .error c) :
    loopRun folder base chunkMs duration tr (l₁ ++ i :: l₂)
      = (okEvents folder base chunkMs duration t l₁
           ++ preBlock folder base chunkMs duration i,
         .error (.api c)) := by
  induction l₁ with
  | nil => simp [loopRun, hi, okEvents]
  | cons j rest ih =>
    have hj : tr j = .ok (t j) := h1 j (List.mem_cons_self _ _)
    have hrest := ih (fun j' hj' => h1 j' (List.mem_cons_of_mem _ hj'))
    simp [loopRun, hj, hrest, okEvents, List.append_assoc]

theorem loopRun_writes {folder base : String} {chunkMs duration : Int}
    {tr : Nat → Except String String} {l : List Nat} {p : String} {cst : FileContent}
    (h : Ev.writeFile p cst ∈ (loopRun folder base chunkMs duration tr l).1) :
    ∃ i ∈ l, p = chunkPath folder base (i + 1) ∨ p = partTxtPath folder base (i + 1) := by
  induction l with
  | nil => simp [loopRun] at h
  | cons i rest ih =>
    rcases hl : loopRun folder base chunkMs duration tr rest with ⟨evs, res⟩
    rcases htr : tr i with c | text
    · rw [loopRun, htr] at h
      simp only [preBlock, List.mem_cons, List.mem_singleton] at h
      rcases h with h | h | h | h | h | h | h
      all_goals first
        | (cases h; exact ⟨i, List.mem_cons_self _ _, Or.inl rfl⟩)
        | (exact absurd h (by simp))
    · rw [loopRun, htr, hl] at h
      have hsplit : Ev.writeFile p cst ∈ preBlock folder base chunkMs duration i
          ∨ Ev.writeFile p cst ∈ postBlock folder base text i
          ∨ Ev.writeFile p cst ∈ evs := by
        cases res <;> simpa [List.mem_append, or_assoc] using h
      rcases hsplit with h' | h' | h'
      · simp only [preBlock, List.mem_cons, List.mem_singleton] at h'
        rcases h' with h' | h' | h' | h' | h' | h'
        all_goals first
          | (cases h'; exact ⟨i, List.mem_cons_self _ _, Or.inl rfl⟩)
          | simp at h'
      · simp only [postBlock, List.mem_cons, List.mem_singleton] at h'
        rcases h' with h' | h'
        · cases h'; exact ⟨i, List.mem_cons_self _ _, Or.inr rfl⟩
        · simp at h'
      · obtain ⟨j, hj, hp⟩ := ih (by rw [hl]; exact h')
        exact ⟨j, List.mem_cons_of_mem _ hj, hp⟩

theorem apiCallCount_append (a b : List Ev) (i : Nat) :
    apiCallCount (a ++ b) i = apiCallCount a i + apiCallCount b i := by
  simp [apiCallCount, List.filter_append]

theorem apiCallCount_preBlock (folder base : String) (chunkMs duration : Int)
    (i j : Nat) :
    apiCallCount (preBlock folder base chunkMs duration i) j
      = if i = j then 1 else 0 := by
  by_cases h : i = j <;> simp [preBlock, apiCallCount, isApiCallTo, h]

theorem apiCallCount_postBlock (folder base : String) (text : String) (i j : Nat) :
    apiCallCount (postBlock folder base text i) j = 0 := by
  simp [postBlock, apiCallCount, isApiCallTo]

theorem loopRun_apiCount {folder base : String} {chunkMs duration : Int}
    {tr : Nat → Except String String} (l : List Nat) (j : Nat) :
    apiCallCount (loopRun folder base chunkMs duration tr l).1 j ≤ l.count j := by
  induction l with
  | nil => simp [loopRun, apiCallCount]
  | cons i rest ih =>
    rcases hl : loopRun folder base chunkMs duration tr rest with ⟨evs, res⟩
    have hcount : (i :: rest).count j = (if i = j then 1 else 0) + rest.count j := by
      rcases Decidable.em (i = j) with h | h <;>
        simp [List.count_cons, h, Nat.add_comm]
    rcases htr : tr i with c | text
    · rw [loopRun, htr]
      simp only [apiCallCount_preBlock, hcount]
      omega
    · rw [loopRun, htr, hl]
      have hevs : (loopRun folder base chunkMs duration tr rest).1 = evs := by rw [hl]
      rw [hevs] at ih
      have hmain : apiCallCount (preBlock folder base chunkMs duration i
            ++ postBlock folder base text i ++ evs) j
          = (if i = j then 1 else 0) + apiCallCount evs j := by
        rw [apiCallCount_append, apiCallCount_append, apiCallCount_preBlock,
          apiCallCount_postBlock]
        omega
      cases res <;> simp only [hmain, hcount] <;> omega

theorem loopRun_err {folder base : String} {chunkMs duration : Int}
    {tr : Nat → Except String String} {l : List Nat} {c : String}
    (h : (loopRun folder base chunkMs duration tr l).2 = .error (.api c)) :
    ∃ i ∈ l, tr i = .error c
      ∧ preBlock folder base chunkMs duration i
          ⊆ (loopRun folder base chunkMs duration tr l).1 := by
  induction l with
  | nil => simp [loopRun] at h
  | cons i rest ih =>
    rcases hl : loopRun folder base chunkMs duration tr rest with ⟨evs, res⟩
    rcases htr : tr i with c' | text
    · rw [loopRun, htr] at h ⊢
      have : c' = c := by simpa using h
      subst this
      exact ⟨i, List.mem_cons_self _ _, htr, fun e he => he⟩
    · rw [loopRun, htr, hl] at h ⊢
      cases res with
      | ok parts => simp at h
      | error e =>
        have he : e = Err.api c := by simpa using h
        subst he
        obtain ⟨j, hj, hje, hsub⟩ := ih (by rw [hl])
        rw [hl] at hsub
        refine ⟨j, List.mem_cons_of_mem _ hj, hje, fun e' he' => ?_⟩
        simp only [List.mem_append]
        exact Or.inr (hsub he')

/-! ## Path lemmas: the stem never contains a slash, and joined output
names are injective in their suffix -/

theorem splitLastSlash_none {l : List Char} (h : splitLastSlash l = none) :
    '/' ∉ l := by
  induction l with
  | nil => simp
  | cons c rest ih =>
    rw [splitLastSlash] at h
    rcases hr : splitLastSlash rest with _ | ⟨hh, tt⟩
    · rw [hr] at h
      by_cases hc : c = '/'
      · simp [hc] at h
      · simp only [List.mem_cons]
        rintro (rfl | hmem)
        · exact hc rfl
        · exact ih hr hmem
    · rw [hr] at h; simp at h

theorem splitLastSlash_tail {l hh tt : List Char}
    (h : splitLastSlash l = some (hh, tt)) : '/' ∉ tt := by
  induction l generalizing hh tt with
  | nil => simp [splitLastSlash] at h
  | cons c rest ih =>
    rw [splitLastSlash] at h
    rcases hr : splitLastSlash rest with _ | ⟨h', t'⟩
    · rw [hr] at h
      by_cases hc : c = '/'
      · simp only [hc, if_pos rfl] at h
        cases h
        exact splitLastSlash_none hr
      · simp [hc] at h
    · rw [hr] at h
      cases h
      exact ih hr

theorem pyBasename_no_slash (p : String) : '/' ∉ (pyBasename p).data := by
  unfold pyBasename
  rcases hs : splitLastSlash p.data with _ | ⟨hh, tt⟩
  · exact splitLastSlash_none hs
  · exact splitLastSlash_tail hs

theorem splitLastDot_eq {l b a : List Char} (h : splitLastDot l = some (b, a)) :
    l = b ++ '.' :: a := by
  induction l generalizing b a with
  | nil => simp [splitLastDot] at h
  | cons c rest ih =>
    rw [splitLastDot] at h
    rcases hr : splitLastDot rest with _ | ⟨b', a'⟩
    · rw [hr] at h
      by_cases hc : c = '.'
      · simp only [hc, if_pos rfl] at h
        cases h
        simp [hc]
      · simp [hc] at h
    · rw [hr] at h
      cases h
      simp [ih hr]

theorem stemChars_no_slash {l : List Char} (h : '/' ∉ l) : '/' ∉ stemChars l := by
  intro hmem
  unfold stemChars at hmem
  rcases hd : splitLastDot l with _ | ⟨b, a⟩ <;> simp only [hd] at hmem
  · exact h hmem
  · split at hmem
    · exact h (by rw [splitLastDot_eq hd]; exact List.mem_append_left _ hmem)
    · exact h hmem

theorem stem_no_slash (p : String) : '/' ∉ (stem p).data :=
  stemChars_no_slash (pyBasename_no_slash p)

theorem pjoin_inj {f x y : String} (hx : x.data.head? ≠ some '/')
    (hy : y.data.head? ≠ some '/') (h : pjoin f x = pjoin f y) : x = y := by
  unfold pjoin at h
  rw [if_neg hx, if_neg hy] at h
  by_cases hf : f.data = [] ∨ f.data.getLast? = some '/'
  · rw [if_pos hf, if_pos hf] at h
    apply String.ext
    have := congrArg String.data h
    rw [String.data_append, String.data_append] at this
    exact List.append_cancel_left this
  · rw [if_neg hf, if_neg hf] at h
    apply String.ext
    have := congrArg String.data h
    rw [String.data_append, String.data_append, String.data_append,
      String.data_append] at this
    exact List.append_cancel_left this

theorem append_head_ne_slash {b s : String} (hb : '/' ∉ b.data)
    (hs : s.data.head? ≠ some '/') : (b ++ s).data.head? ≠ some '/' := by
  rw [String.data_append]
  rcases hbd : b.data with _ | ⟨c, rest⟩
  · simpa using hs
  · have hc : c ≠ '/' := by
      intro hcc
      exact hb (by rw [hbd, hcc]; exact List.mem_cons_self _ _)
    simpa using fun hcon => hc hcon

theorem joined_name_ne {f b : String} (hb : '/' ∉ b.data) {s₁ s₂ : String}
    (h1 : s₁.data.head? ≠ some '/') (h2 : s₂.data.head? ≠ some '/')
    (hne : s₁ ≠ s₂) : pjoin f (b ++ s₁) ≠ pjoin f (b ++ s₂) := by
  intro h
  have hx := append_head_ne_slash hb h1
  have hy := append_head_ne_slash hb h2
  have hbs := pjoin_inj hx hy h
  apply hne
  apply String.ext
  have := congrArg String.data hbs
  rw [String.data_append, String.data_append] at this
  exact List.append_cancel_left this

/-! ## Run-level lemmas -/

theorem chunkMsInt_ne {k : Int} (h : k ≠ 0) : k * 60 * 1000 ≠ 0 := by
  intro hc
  rcases mul_eq_zero.mp hc with h1 | h1
  · rcases mul_eq_zero.mp h1 with h2 | h2
    · exact h h2
    · exact absurd h2 (by norm_num)
  · exact absurd h1 (by norm_num)

theorem run_eq_valid {inp : Inp} {ap : String} {rest : List String} {k : Int}
    (hargs : inp.args = ap :: rest) (hparse : parseChunkArg rest = .ok k)
    (hkey : keyOk inp.apiKey = true) (hex : inp.audioExists = true) :
    run inp = runValid ap k inp.durationMs inp.tr := by
  unfold run
  rw [hargs]
  simp [hparse, hkey, hex]

theorem ceilDivInt_zero_left (b : Int) : ceilDivInt 0 b = 0 := by
  unfold ceilDivInt
  norm_num

theorem runValid_ok {ap : String} {k : Int} {dur : Nat}
    {tr : Nat → Except String String} {t : Nat → String}
    (hk : k ≠ 0) (ht : ∀ i, tr i = .ok (t i)) :
    runValid ap k dur tr
      = (preEvents ap dur
          ++ [ Ev.print ("Splitting into "
                 ++ toString (ceilDivInt (dur : Int) (k * 60 * 1000)) ++ " chunk(s) of ~"
                 ++ toString k ++ " minutes each.\n") ]
          ++ okEvents (pyDirname ap) (stem ap) (k * 60 * 1000) (dur : Int) t
               (List.range (ceilDivInt (dur : Int) (k * 60 * 1000)).toNat)
          ++ [ Ev.writeFile (fullPath (pyDirname ap) (stem ap))
                 (.text (String.intercalate "\n\n"
                   (okParts (k * 60 * 1000) (dur : Int) t
                     (List.range (ceilDivInt (dur : Int) (k * 60 * 1000)).toNat))))
             , Ev.print "Done."
             , Ev.print ("Full transcript saved to: " ++ fullPath (pyDirname ap) (stem ap)) ],
         .ok ()) := by
  unfold runValid
  rw [if_neg (chunkMsInt_ne hk)]
  simp only [loopRun_ok (t := t) (fun i _ => ht i)]

/-- C6. If the `OPENAI_API_KEY` environment variable is absent, the
run performs no file I/O at all — every event is a console print, so the
input audio is never loaded or opened and no output file is written —
and, whenever the command-line arguments are otherwise well-formed, it
aborts with the configuration error. -/
theorem missing_key_aborts_before_io (inp : Inp) (hkey : inp.apiKey = none) :
    (∀ e ∈ (run inp).1, isPrint e = true)
    ∧ (∀ (ap : String) (rest : List String) (k : Int),
        inp.args = ap :: rest → parseChunkArg rest = .ok k →
        (run inp).2 = .error .config) := by
  have hko : keyOk inp.apiKey = false := by rw [hkey]; rfl
  constructor
  · intro e he
    unfold run at he
    rcases hargs : inp.args with _ | ⟨ap, rest⟩
    · rw [hargs] at he
      simp only [List.mem_singleton] at he
      subst he; rfl
    · rw [hargs] at he
      rcases hp : parseChunkArg rest with u | k
      · simp only [hp] at he
        simp only [List.mem_singleton] at he
        subst he; rfl
      · simp only [hp, hko] at he
        simp at he
  · intro ap rest k hargs hp
    unfold run
    rw [hargs]
    simp [hp, hko]

/-- C6 (witness). A concrete run with no credential: every event is
a print and the result is the configuration error. -/
theorem missing_key_aborts_before_io_witness :
    (∀ e ∈ (run (Inp.mk ["/tmp/a.mp3"] none true 60000 (fun _ => .ok "t"))).1,
        isPrint e = true)
    ∧ (∀ (ap : String) (rest : List String) (k : Int),
        ["/tmp/a.mp3"] = ap :: rest → parseChunkArg rest = .ok k →
        (run (Inp.mk ["/tmp/a.mp3"] none true 60000 (fun _ => .ok "t"))).2
          = .error .config) :=
  missing_key_aborts_before_io (Inp.mk ["/tmp/a.mp3"] none true 60000 (fun _ => .ok "t")) rfl

/-- C9. When the chunk-minutes argument parses to `0`, the argument
check does not reject it; the run loads the audio (the `loadAudio` event
occurs) and then aborts with the `ZeroDivisionError` from
`num_chunks = math.ceil(duration_ms / chunk_ms)`, not with a usage
error. -/
theorem zero_chunk_div_crash (inp : Inp) (ap a : String) (rest : List String)
    (hargs : inp.args = ap :: a :: rest) (ha : pyInt? a = some 0)
    (hkey : keyOk inp.apiKey = true) (hex : inp.audioExists = true) :
    run inp = (preEvents ap inp.durationMs, .error .zeroDiv)
    ∧ Ev.loadAudio ap ∈ (run inp).1
    ∧ (run inp).2 ≠ .error .usage := by
  have hp : parseChunkArg (a :: rest) = .ok 0 := by simp [parseChunkArg, ha]
  have hrun : run inp = runValid ap 0 inp.durationMs inp.tr :=
    run_eq_valid hargs hp hkey hex
  have hv : runValid ap 0 inp.durationMs inp.tr
      = (preEvents ap inp.durationMs, .error .zeroDiv) := by
    unfold runValid
    norm_num
  refine ⟨hrun.trans hv, ?_, ?_⟩
  · rw [hrun, hv]
    simp [preEvents]
  · rw [hrun, hv]
    simp

/-- C9 (witness). A concrete run with chunk-minutes argument `"0"`:
audio is loaded, then the division-by-zero abort. -/
theorem zero_chunk_div_crash_witness :
    run (Inp.mk ["/tmp/a.mp3", "0"] (some "key") true 60000 (fun _ => .ok "t"))
        = (preEvents "/tmp/a.mp3" 60000, .error .zeroDiv)
    ∧ Ev.loadAudio "/tmp/a.mp3"
        ∈ (run (Inp.mk ["/tmp/a.mp3", "0"] (some "key") true 60000 (fun _ => .ok "t"))).1
    ∧ (run (Inp.mk ["/tmp/a.mp3", "0"] (some "key") true 60000 (fun _ => .ok "t"))).2
        ≠ .error .usage :=
  zero_chunk_div_crash (Inp.mk ["/tmp/a.mp3", "0"] (some "key") true 60000 (fun _ => .ok "t"))
    "/tmp/a.mp3" "0" [] rfl (by decide) rfl rfl

theorem run_shape (inp : Inp) :
    ((run inp).2 = .error .usage ∧ ∃ s, (run inp).1 = [Ev.print s])
    ∨ ((run inp).1 = [] ∧ ((run inp).2 = .error .config ∨ (run inp).2 = .error .notFound))
    ∨ (∃ ap rest k, inp.args = ap :: rest ∧ parseChunkArg rest = .ok k
        ∧ run inp = runValid ap k inp.durationMs inp.tr) := by
  rcases hargs : inp.args with _ | ⟨ap, rest⟩
  · have h : run inp
        = ([Ev.print "Usage: python transcribe_split.py path/to/audio.mp3 [chunk_minutes]"],
           .error .usage) := by
      unfold run; rw [hargs]
    left
    rw [h]
    exact ⟨rfl, _, rfl⟩
  · rcases hp : parseChunkArg rest with u | k
    · have h : run inp
          = ([Ev.print "chunk_minutes must be an integer (e.g. 20)"], .error .usage) := by
        unfold run; rw [hargs]; simp [hp]
      left
      rw [h]
      exact ⟨rfl, _, rfl⟩
    · cases hkey : keyOk inp.apiKey with
      | false =>
        have h : run inp = ([], .error .config) := by
          unfold run; rw [hargs]; simp [hp, hkey]
        right; left
        rw [h]
        exact ⟨rfl, Or.inl rfl⟩
      | true =>
        cases hex : inp.audioExists with
        | false =>
          have h : run inp = ([], .error .notFound) := by
            unfold run; rw [hargs]; simp [hp, hkey, hex]
          right; left
          rw [h]
          exact ⟨rfl, Or.inr rfl⟩
        | true =>
          right; right
          exact ⟨ap, rest, k, rfl, hp, run_eq_valid hargs hp hkey hex⟩

theorem runValid_shape (ap : String) (k : Int) (dur : Nat)
    (tr : Nat → Except String String) :
    ((k * 60 * 1000 : Int) = 0
      ∧ runValid ap k dur tr = (preEvents ap dur, .error .zeroDiv))
    ∨ (∃ levs e, loopRun (pyDirname ap) (stem ap) (k * 60 * 1000) (dur : Int) tr
          (List.range (ceilDivInt (dur : Int) (k * 60 * 1000)).toNat) = (levs, .error e)
        ∧ runValid ap k dur tr
            = (preEvents ap dur
                ++ [ Ev.print ("Splitting into "
                       ++ toString (ceilDivInt (dur : Int) (k * 60 * 1000))
                       ++ " chunk(s) of ~" ++ toString k ++ " minutes each.\n") ]
                ++ levs, .error e))
    ∨ (∃ levs parts, loopRun (pyDirname ap) (stem ap) (k * 60 * 1000) (dur : Int) tr
          (List.range (ceilDivInt (dur : Int) (k * 60 * 1000)).toNat) = (levs, .ok parts)
        ∧ runValid ap k dur tr
            = (preEvents ap dur
                ++ [ Ev.print ("Splitting into "
                       ++ toString (ceilDivInt (dur : Int) (k * 60 * 1000))
                       ++ " chunk(s) of ~" ++ toString k ++ " minutes each.\n") ]
                ++ levs
                ++ [ Ev.writeFile (fullPath (pyDirname ap) (stem ap))
                       (.text (String.intercalate "\n\n" parts))
                   , Ev.print "Done."
                   , Ev.print ("Full transcript saved to: "
                       ++ fullPath (pyDirname ap) (stem ap)) ],
               .ok ())) := by
  by_cases hc : (k * 60 * 1000 : Int) = 0
  · left
    refine ⟨hc, ?_⟩
    unfold runValid
    rw [if_pos hc]
  · rcases hl : loopRun (pyDirname ap) (stem ap) (k * 60 * 1000) (dur : Int) tr
        (List.range (ceilDivInt (dur : Int) (k * 60 * 1000)).toNat) with ⟨levs, lres⟩
    cases lres with
    | error e =>
      right; left
      refine ⟨levs, e, rfl, ?_⟩
      unfold runValid
      rw [if_neg hc]
      simp only [hl]
    | ok parts =>
      right; right
      refine ⟨levs, parts, rfl, ?_⟩
      unfold runValid
      rw [if_neg hc]
      simp only [hl]

/-- C4 (code bug). The failing inputs evaluated: the chunk-minutes
argument `"0"` passes the argument check, the audio is loaded, and the
run dies with the `ZeroDivisionError` — not the usage error the spec
requires; the argument `"-5"` likewise passes, and the run completes
successfully and writes the (empty) merged transcript. Non-positive
integer arguments are therefore not reported as usage errors before
processing. -/
theorem nonpositive_chunk_arg_behavior :
    (run (Inp.mk ["/tmp/a.mp3", "0"] (some "key") true 60000 (fun _ => .ok "t"))).2
        = .error .zeroDiv
    ∧ (run (Inp.mk ["/tmp/a.mp3", "0"] (some "key") true 60000 (fun _ => .ok "t"))).2
        ≠ .error .usage
    ∧ Ev.loadAudio "/tmp/a.mp3"
        ∈ (run (Inp.mk ["/tmp/a.mp3", "0"] (some "key") true 60000 (fun _ => .ok "t"))).1
    ∧ (run (Inp.mk ["/tmp/a.mp3", "-5"] (some "key") true 60000 (fun _ => .ok "t"))).2
        = .ok ()
    ∧ Ev.writeFile "/tmp/a_full_transcript.txt" (.text "")
        ∈ (run (Inp.mk ["/tmp/a.mp3", "-5"] (some "key") true 60000 (fun _ => .ok "t"))).1 :=
  ⟨rfl,
    by
      intro h
      have h2 : (Except.error Err.zeroDiv : Except Err Unit) = Except.error Err.usage := h
      injection h2 with h3
      exact Err.noConfusion h3,
    by decide, rfl, by decide⟩

/-- C10. With a well-formed invocation and zero audio duration the
plan is empty, yet the run succeeds and writes the merged transcript
file with empty contents; and on every successful run, whatever the
chunk count, the merged transcript file is written. -/
theorem empty_plan_merged_written :
    (∀ (inp : Inp) (ap : String) (rest : List String) (k : Int),
      inp.args = ap :: rest → parseChunkArg rest = .ok k → k ≠ 0 →
      keyOk inp.apiKey = true → inp.audioExists = true → inp.durationMs = 0 →
      (run inp).2 = .ok ()
        ∧ Ev.writeFile (fullPath (pyDirname ap) (stem ap)) (.text "") ∈ (run inp).1)
    ∧ (∀ inp : Inp, (run inp).2 = .ok () →
        ∃ ap rest, inp.args = ap :: rest
          ∧ ∃ cst, Ev.writeFile (fullPath (pyDirname ap) (stem ap)) cst ∈ (run inp).1) := by
  constructor
  · intro inp ap rest k hargs hp hk hkey hex hd
    have hrun := run_eq_valid hargs hp hkey hex
    rw [hd] at hrun
    have hz : (ceilDivInt ((0 : Nat) : Int) (k * 60 * 1000)).toNat = 0 := by
      norm_num [ceilDivInt_zero_left]
    rcases runValid_shape ap k 0 inp.tr with ⟨hc0, h⟩ | ⟨levs, e, hl, h⟩
        | ⟨levs, parts, hl, h⟩
    · exact absurd hc0 (chunkMsInt_ne hk)
    · rw [hz, List.range_zero] at hl
      have hl' : (([], Except.ok []) : List Ev × Except Err (List String))
          = (levs, Except.error e) := hl
      injection hl' with ha hb
      exact Except.noConfusion hb
    · rw [hz, List.range_zero] at hl
      have hl' : (([], Except.ok []) : List Ev × Except Err (List String))
          = (levs, Except.ok parts) := hl
      injection hl' with ha hb
      injection hb with hb2
      subst ha
      subst hb2
      have hint : String.intercalate "\n\n" ([] : List String) = "" := rfl
      rw [hrun, h]
      constructor
      · rfl
      · simp [hint]
  · intro inp hok
    rcases run_shape inp with ⟨h, _⟩ | ⟨_, h | h⟩ | ⟨ap, rest, k, hargs, hp, hrun⟩
    · rw [hok] at h; exact Except.noConfusion h
    · rw [hok] at h; exact Except.noConfusion h
    · rw [hok] at h; exact Except.noConfusion h
    · refine ⟨ap, rest, hargs, ?_⟩
      rcases runValid_shape ap k inp.durationMs inp.tr with ⟨hc0, h⟩ | ⟨levs, e, hl, h⟩
          | ⟨levs, parts, hl, h⟩
      · rw [hrun, h] at hok; exact Except.noConfusion hok
      · rw [hrun, h] at hok; exact Except.noConfusion hok
      · rw [hrun, h]
        exact ⟨.text (String.intercalate "\n\n" parts), by simp⟩

/-- C10 (witness). A concrete zero-duration run writing the empty
merged transcript, and a concrete successful run instantiating the
always-written clause. -/
theorem empty_plan_merged_written_witness :
    ((run (Inp.mk ["/tmp/a.mp3"] (some "key") true 0 (fun _ => .ok "t"))).2 = .ok ()
      ∧ Ev.writeFile (fullPath (pyDirname "/tmp/a.mp3") (stem "/tmp/a.mp3")) (.text "")
          ∈ (run (Inp.mk ["/tmp/a.mp3"] (some "key") true 0 (fun _ => .ok "t"))).1)
    ∧ (∃ ap rest, (Inp.mk ["/tmp/a.mp3"] (some "key") true 0 (fun _ => .ok "t")).args
          = ap :: rest
        ∧ ∃ cst, Ev.writeFile (fullPath (pyDirname ap) (stem ap)) cst
            ∈ (run (Inp.mk ["/tmp/a.mp3"] (some "key") true 0 (fun _ => .ok "t"))).1) :=
  ⟨empty_plan_merged_written.1 (Inp.mk ["/tmp/a.mp3"] (some "key") true 0 (fun _ => .ok "t"))
      "/tmp/a.mp3" [] 20 rfl rfl (by decide) rfl rfl rfl,
    empty_plan_merged_written.2 (Inp.mk ["/tmp/a.mp3"] (some "key") true 0 (fun _ => .ok "t"))
      rfl⟩

/-- C8. Every file the run writes lives in the directory of the
input file (`os.path.dirname`) and is named from its basename's stem:
either a per-chunk audio file `<stem>_part_<n>.mp3` or transcript
`<stem>_part_<n>_transcript.txt` with 1-based index `n`, or the merged
transcript `<stem>_full_transcript.txt`. -/
theorem outputs_in_input_dir (inp : Inp) (ap : String) (rest : List String)
    (hargs : inp.args = ap :: rest) :
    ∀ (p : String) (cst : FileContent), Ev.writeFile p cst ∈ (run inp).1 →
      (∃ n, 1 ≤ n ∧ (p = chunkPath (pyDirname ap) (stem ap) n
          ∨ p = partTxtPath (pyDirname ap) (stem ap) n))
      ∨ p = fullPath (pyDirname ap) (stem ap) := by
  intro p cst hmem
  rcases run_shape inp with ⟨_, s, hevs⟩ | ⟨hevs, _⟩
      | ⟨ap', rest', k, hargs', hp, hrun⟩
  · rw [hevs] at hmem; simp at hmem
  · rw [hevs] at hmem; simp at hmem
  · have hap : ap' = ap := by
      rw [hargs] at hargs'
      injection hargs' with h1 h2
      exact h1.symm
    subst hap
    rcases runValid_shape ap' k inp.durationMs inp.tr with ⟨hc0, h⟩ | ⟨levs, e, hl, h⟩
        | ⟨levs, parts, hl, h⟩
    · rw [hrun, h] at hmem
      simp [preEvents] at hmem
    · rw [hrun, h] at hmem
      simp only [List.mem_append, List.mem_singleton] at hmem
      rcases hmem with (hmem | hmem) | hmem
      · simp [preEvents] at hmem
      · simp at hmem
      · obtain ⟨i, _, hp2⟩ := loopRun_writes (by rw [hl]; exact hmem)
        exact Or.inl ⟨i + 1, by omega, hp2⟩
    · rw [hrun, h] at hmem
      simp only [List.mem_append, List.mem_cons, List.mem_singleton] at hmem
      rcases hmem with ((hmem | hmem) | hmem) | hmem | hmem | hmem
      · simp [preEvents] at hmem
      · simp at hmem
      · obtain ⟨i, _, hp2⟩ := loopRun_writes (by rw [hl]; exact hmem)
        exact Or.inl ⟨i + 1, by omega, hp2⟩
      · injection hmem with h1 h2
        exact Or.inr h1
      · simp at hmem
      · simp at hmem

/-- C8 (witness). The naming property applied to the window-1 audio
write of a concrete successful three-chunk run. -/
theorem outputs_in_input_dir_witness :
    (∃ n, 1 ≤ n
        ∧ ("/tmp/a_part_1.mp3" = chunkPath (pyDirname "/tmp/a.mp3") (stem "/tmp/a.mp3") n
          ∨ "/tmp/a_part_1.mp3" = partTxtPath (pyDirname "/tmp/a.mp3") (stem "/tmp/a.mp3") n))
    ∨ "/tmp/a_part_1.mp3" = fullPath (pyDirname "/tmp/a.mp3") (stem "/tmp/a.mp3") :=
  outputs_in_input_dir
    (Inp.mk ["/tmp/a.mp3", "20"] (some "key") true 3600000 (fun _ => .ok "ok"))
    "/tmp/a.mp3" ["20"] rfl "/tmp/a_part_1.mp3" (.audioSlice 0 1200000) (by decide)

/-- C2 (amended). On a well-formed run whose transcriptions all
succeed, the run ends with the merged-transcript write followed only by
two prints: the merged file's content is the in-index-order
concatenation, separated by exactly one blank line, of the per-chunk
blocks, each being the header line
`### Part <index> (<start_min>–<end_min> min)` (minutes to one decimal
place) followed by a blank line and the chunk's transcription text
verbatim. -/
theorem merged_content_structure (inp : Inp) (ap : String) (rest : List String)
    (k : Int) (t : Nat → String)
    (hargs : inp.args = ap :: rest) (hp : parseChunkArg rest = .ok k)
    (hkey : keyOk inp.apiKey = true) (hex : inp.audioExists = true)
    (hk : k ≠ 0) (ht : ∀ i, inp.tr i = .ok (t i)) :
    (run inp).2 = .ok ()
    ∧ ∃ pre : List Ev,
        (run inp).1
          = pre
            ++ [ Ev.writeFile (fullPath (pyDirname ap) (stem ap))
                   (.text (String.intercalate "\n\n"
                     (okParts (k * 60 * 1000) (inp.durationMs : Int) t
                       (List.range
                         (ceilDivInt (inp.durationMs : Int) (k * 60 * 1000)).toNat))))
               , Ev.print "Done."
               , Ev.print ("Full transcript saved to: "
                   ++ fullPath (pyDirname ap) (stem ap)) ] := by
  have hrun := run_eq_valid hargs hp hkey hex
  have hv := @runValid_ok ap k inp.durationMs inp.tr t hk ht
  rw [hrun, hv]
  refine ⟨rfl, ?_⟩
  exact ⟨preEvents ap inp.durationMs
      ++ [ Ev.print ("Splitting into "
             ++ toString (ceilDivInt (inp.durationMs : Int) (k * 60 * 1000))
             ++ " chunk(s) of ~" ++ toString k ++ " minutes each.\n") ]
      ++ okEvents (pyDirname ap) (stem ap) (k * 60 * 1000) (inp.durationMs : Int) t
           (List.range (ceilDivInt (inp.durationMs : Int) (k * 60 * 1000)).toNat), rfl⟩

/-- C2 (witness). The amended merged-content property at a concrete
one-chunk run. -/
theorem merged_content_structure_witness :
    (run (Inp.mk ["/tmp/a.mp3"] (some "key") true 60000 (fun _ => .ok "hello"))).2
        = .ok ()
    ∧ ∃ pre : List Ev,
        (run (Inp.mk ["/tmp/a.mp3"] (some "key") true 60000 (fun _ => .ok "hello"))).1
          = pre
            ++ [ Ev.writeFile (fullPath (pyDirname "/tmp/a.mp3") (stem "/tmp/a.mp3"))
                   (.text (String.intercalate "\n\n"
                     (okParts (20 * 60 * 1000) ((60000 : Nat) : Int) (fun _ => "hello")
                       (List.range
                         (ceilDivInt ((60000 : Nat) : Int) (20 * 60 * 1000)).toNat))))
               , Ev.print "Done."
               , Ev.print ("Full transcript saved to: "
                   ++ fullPath (pyDirname "/tmp/a.mp3") (stem "/tmp/a.mp3")) ] :=
  merged_content_structure
    (Inp.mk ["/tmp/a.mp3"] (some "key") true 60000 (fun _ => .ok "hello"))
    "/tmp/a.mp3" [] 20 (fun _ => "hello") rfl rfl rfl rfl (by decide) (fun _ => rfl)

/-- C2 (counterexample). The claim's header shape is wrong: on a
concrete one-chunk run the only write to the merged path carries the
block `### Part 1 (0.0–1.0 min)\n\nhello`, which differs from the
spec-worded block `Part 1 (0.0–1.0 min)\n\nhello` — the code prefixes
every header with `### `. -/
theorem merged_header_spec_mismatch :
    ((run (Inp.mk ["/tmp/a.mp3"] (some "key") true 60000 (fun _ => .ok "hello"))).1.filter
        (fun e => match e with
          | Ev.writeFile p _ => p == "/tmp/a_full_transcript.txt"
          | _ => false))
      = [Ev.writeFile "/tmp/a_full_transcript.txt"
          (.text "### Part 1 (0.0–1.0 min)\n\nhello")]
    ∧ "### Part 1 (0.0–1.0 min)\n\nhello" ≠ specMergedBlock 1 0 60000 "hello"
    ∧ specMergedBlock 1 0 60000 "hello" = "Part 1 (0.0–1.0 min)\n\nhello" :=
  ⟨by decide, by decide, by decide⟩

/-- C3 (amended). If transcription fails on window 2 of a 3-window
plan, then at the abort the audio and transcript files of window 1 have
been written, the audio file of window 2 has also been written (the
export precedes the failing call), window 2's transcript and both files
of window 3 are never written, and the merged transcript is never
written. -/
theorem failure_on_window2_files (inp : Inp) (ap : String) (rest : List String)
    (k : Int) (t0 c : String)
    (hargs : inp.args = ap :: rest) (hp : parseChunkArg rest = .ok k)
    (hkey : keyOk inp.apiKey = true) (hex : inp.audioExists = true)
    (hk : k ≠ 0)
    (hn : (ceilDivInt (inp.durationMs : Int) (k * 60 * 1000)).toNat = 3)
    (ht0 : inp.tr 0 = .ok t0) (ht1 : inp.tr 1 = .error c) :
    (run inp).2 = .error (.api c)
    ∧ (∃ cst, Ev.writeFile (chunkPath (pyDirname ap) (stem ap) 1) cst ∈ (run inp).1)
    ∧ (∃ cst, Ev.writeFile (partTxtPath (pyDirname ap) (stem ap) 1) cst ∈ (run inp).1)
    ∧ (∃ cst, Ev.writeFile (chunkPath (pyDirname ap) (stem ap) 2) cst ∈ (run inp).1)
    ∧ (∀ cst, Ev.writeFile (partTxtPath (pyDirname ap) (stem ap) 2) cst ∉ (run inp).1)
    ∧ (∀ cst, Ev.writeFile (chunkPath (pyDirname ap) (stem ap) 3) cst ∉ (run inp).1)
    ∧ (∀ cst, Ev.writeFile (partTxtPath (pyDirname ap) (stem ap) 3) cst ∉ (run inp).1)
    ∧ (∀ cst, Ev.writeFile (fullPath (pyDirname ap) (stem ap)) cst ∉ (run inp).1) := by
  have hrun := run_eq_valid hargs hp hkey hex
  have h1' : ∀ j ∈ ([0] : List Nat), inp.tr j = .ok ((fun _ => t0) j) := by
    intro j hj
    simp only [List.mem_singleton] at hj
    subst hj
    exact ht0
  have hfail := @loopRun_fail (pyDirname ap) (stem ap) (k * 60 * 1000)
    (inp.durationMs : Int) inp.tr (fun _ => t0) c [0] 1 [2] h1' ht1
  have hlist : (([0] ++ 1 :: [2]) : List Nat) = [0, 1, 2] := rfl
  rw [hlist] at hfail
  have hr3 : List.range 3 = [0, 1, 2] := by decide
  have hev : run inp
      = (preEvents ap inp.durationMs
          ++ [ Ev.print ("Splitting into "
                 ++ toString (ceilDivInt (inp.durationMs : Int) (k * 60 * 1000))
                 ++ " chunk(s) of ~" ++ toString k ++ " minutes each.\n") ]
          ++ (okEvents (pyDirname ap) (stem ap) (k * 60 * 1000) (inp.durationMs : Int)
                (fun _ => t0) [0]
              ++ preBlock (pyDirname ap) (stem ap) (k * 60 * 1000) (inp.durationMs : Int) 1),
         .error (.api c)) := by
    rw [hrun]
    unfold runValid
    rw [if_neg (chunkMsInt_ne hk)]
    simp only [hn, hr3, hfail]
  have hnn : ∀ s₁ s₂ : String, s₁.data.head? ≠ some '/' → s₂.data.head? ≠ some '/' →
      s₁ ≠ s₂ →
      pjoin (pyDirname ap) (stem ap ++ s₁) ≠ pjoin (pyDirname ap) (stem ap ++ s₂) :=
    fun s₁ s₂ hx hy hne => joined_name_ne (stem_no_slash ap) hx hy hne
  refine ⟨by rw [hev], ?_, ?_, ?_, ?_, ?_, ?_, ?_⟩
  · refine ⟨.audioSlice 0 (min (k * 60 * 1000) (inp.durationMs : Int)), ?_⟩
    rw [hev]
    simp [okEvents, preBlock, postBlock]
  · refine ⟨.text t0, ?_⟩
    rw [hev]
    simp [okEvents, preBlock, postBlock]
  · refine ⟨.audioSlice (k * 60 * 1000) (min (2 * (k * 60 * 1000)) (inp.durationMs : Int)), ?_⟩
    rw [hev]
    simp [okEvents, preBlock, postBlock]
  · intro cst hmem
    rw [hev] at hmem
    simp only [okEvents, preBlock, postBlock, preEvents, List.append_nil, List.mem_append,
      List.mem_cons, List.not_mem_nil, or_false] at hmem
    simp at hmem
    rcases hmem with (⟨h, _⟩ | ⟨h, _⟩) | ⟨h, _⟩
    · exact hnn ("_part_" ++ toString 2 ++ "_transcript.txt")
        ("_part_" ++ toString 1 ++ ".mp3") (by decide) (by decide) (by decide) h
    · exact hnn ("_part_" ++ toString 2 ++ "_transcript.txt")
        ("_part_" ++ toString 1 ++ "_transcript.txt") (by decide) (by decide) (by decide) h
    · exact hnn ("_part_" ++ toString 2 ++ "_transcript.txt")
        ("_part_" ++ toString 2 ++ ".mp3") (by decide) (by decide) (by decide) h
  · intro cst hmem
    rw [hev] at hmem
    simp only [okEvents, preBlock, postBlock, preEvents, List.append_nil, List.mem_append,
      List.mem_cons, List.not_mem_nil, or_false] at hmem
    simp at hmem
    rcases hmem with (⟨h, _⟩ | ⟨h, _⟩) | ⟨h, _⟩
    · exact hnn ("_part_" ++ toString 3 ++ ".mp3")
        ("_part_" ++ toString 1 ++ ".mp3") (by decide) (by decide) (by decide) h
    · exact hnn ("_part_" ++ toString 3 ++ ".mp3")
        ("_part_" ++ toString 1 ++ "_transcript.txt") (by decide) (by decide) (by decide) h
    · exact hnn ("_part_" ++ toString 3 ++ ".mp3")
        ("_part_" ++ toString 2 ++ ".mp3") (by decide) (by decide) (by decide) h
  · intro cst hmem
    rw [hev] at hmem
    simp only [okEvents, preBlock, postBlock, preEvents, List.append_nil, List.mem_append,
      List.mem_cons, List.not_mem_nil, or_false] at hmem
    simp at hmem
    rcases hmem with (⟨h, _⟩ | ⟨h, _⟩) | ⟨h, _⟩
    · exact hnn ("_part_" ++ toString 3 ++ "_transcript.txt")
        ("_part_" ++ toString 1 ++ ".mp3") (by decide) (by decide) (by decide) h
    · exact hnn ("_part_" ++ toString 3 ++ "_transcript.txt")
        ("_part_" ++ toString 1 ++ "_transcript.txt") (by decide) (by decide) (by decide) h
    · exact hnn ("_part_" ++ toString 3 ++ "_transcript.txt")
        ("_part_" ++ toString 2 ++ ".mp3") (by decide) (by decide) (by decide) h
  · intro cst hmem
    rw [hev] at hmem
    simp only [okEvents, preBlock, postBlock, preEvents, List.append_nil, List.mem_append,
      List.mem_cons, List.not_mem_nil, or_false] at hmem
    simp at hmem
    rcases hmem with (⟨h, _⟩ | ⟨h, _⟩) | ⟨h, _⟩
    · exact hnn "_full_transcript.txt"
        ("_part_" ++ toString 1 ++ ".mp3") (by decide) (by decide) (by decide) h
    · exact hnn "_full_transcript.txt"
        ("_part_" ++ toString 1 ++ "_transcript.txt") (by decide) (by decide) (by decide) h
    · exact hnn "_full_transcript.txt"
        ("_part_" ++ toString 2 ++ ".mp3") (by decide) (by decide) (by decide) h

/-- C3 (witness). The amended mid-failure property at a concrete
60-minute, 20-minute-chunk run whose second window fails. -/
theorem failure_on_window2_files_witness :
    (run (Inp.mk ["/tmp/a.mp3", "20"] (some "key") true 3600000
        (fun j => if j = 1 then .error "boom" else .ok "ok"))).2 = .error (.api "boom")
    ∧ (∃ cst, Ev.writeFile (chunkPath (pyDirname "/tmp/a.mp3") (stem "/tmp/a.mp3") 1) cst
        ∈ (run (Inp.mk ["/tmp/a.mp3", "20"] (some "key") true 3600000
            (fun j => if j = 1 then .error "boom" else .ok "ok"))).1)
    ∧ (∃ cst, Ev.writeFile (partTxtPath (pyDirname "/tmp/a.mp3") (stem "/tmp/a.mp3") 1) cst
        ∈ (run (Inp.mk ["/tmp/a.mp3", "20"] (some "key") true 3600000
            (fun j => if j = 1 then .error "boom" else .ok "ok"))).1)
    ∧ (∃ cst, Ev.writeFile (chunkPath (pyDirname "/tmp/a.mp3") (stem "/tmp/a.mp3") 2) cst
        ∈ (run (Inp.mk ["/tmp/a.mp3", "20"] (some "key") true 3600000
            (fun j => if j = 1 then .error "boom" else .ok "ok"))).1)
    ∧ (∀ cst, Ev.writeFile (partTxtPath (pyDirname "/tmp/a.mp3") (stem "/tmp/a.mp3") 2) cst
        ∉ (run (Inp.mk ["/tmp/a.mp3", "20"] (some "key") true 3600000
            (fun j => if j = 1 then .error "boom" else .ok "ok"))).1)
    ∧ (∀ cst, Ev.writeFile (chunkPath (pyDirname "/tmp/a.mp3") (stem "/tmp/a.mp3") 3) cst
        ∉ (run (Inp.mk ["/tmp/a.mp3", "20"] (some "key") true 3600000
            (fun j => if j = 1 then .error "boom" else .ok "ok"))).1)
    ∧ (∀ cst, Ev.writeFile (partTxtPath (pyDirname "/tmp/a.mp3") (stem "/tmp/a.mp3") 3) cst
        ∉ (run (Inp.mk ["/tmp/a.mp3", "20"] (some "key") true 3600000
            (fun j => if j = 1 then .error "boom" else .ok "ok"))).1)
    ∧ (∀ cst, Ev.writeFile (fullPath (pyDirname "/tmp/a.mp3") (stem "/tmp/a.mp3")) cst
        ∉ (run (Inp.mk ["/tmp/a.mp3", "20"] (some "key") true 3600000
            (fun j => if j = 1 then .error "boom" else .ok "ok"))).1) :=
  failure_on_window2_files
    (Inp.mk ["/tmp/a.mp3", "20"] (some "key") true 3600000
      (fun j => if j = 1 then .error "boom" else .ok "ok"))
    "/tmp/a.mp3" ["20"] 20 "ok" "boom" rfl rfl rfl rfl (by decide) (by decide) rfl rfl

/-- C3 (counterexample). The claim's "no file (audio or transcript)
exists for window 2" is false: on a concrete 3-window run failing at
window 2, the audio slice of window 2 has already been exported when the
transcription call fails. -/
theorem midFailure_chunk2_audio_written :
    (run (Inp.mk ["/tmp/a.mp3", "20"] (some "key") true 3600000
        (fun j => if j = 1 then .error "boom" else .ok "ok"))).2 = .error (.api "boom")
    ∧ (ceilDivInt ((3600000 : Nat) : Int) (20 * 60 * 1000)).toNat = 3
    ∧ Ev.writeFile "/tmp/a_part_2.mp3" (.audioSlice 1200000 2400000)
        ∈ (run (Inp.mk ["/tmp/a.mp3", "20"] (some "key") true 3600000
            (fun j => if j = 1 then .error "boom" else .ok "ok"))).1 :=
  ⟨rfl, by decide, by decide⟩

/-! ## Refined-loop lemmas -/

theorem take_two_sub_preBlock (folder base : String) (chunkMs duration : Int)
    (i : Nat) {n : Nat} (hn : 2 ≤ n) :
    (preBlock folder base chunkMs duration i).take 2
      ⊆ (preBlock folder base chunkMs duration i).take n := by
  intro x hx
  rcases hn2 : n with _ | n1
  · omega
  rcases hn3 : n1 with _ | n2
  · omega
  simp only [preBlock, List.take, List.mem_cons, List.not_mem_nil, or_false] at hx ⊢
  rcases hx with rfl | rfl
  · simp
  · simp

theorem loopRunF_err {folder base : String} {chunkMs duration : Int}
    {tr : Nat → Except String String} {fs : FsOp → Option String} {l : List Nat}
    {e : ErrF}
    (h : (loopRunF folder base chunkMs duration tr fs l).2 = .error e) :
    (∃ c, e = .api c ∧ ∃ i ∈ l, tr i = .error c
        ∧ preBlock folder base chunkMs duration i
            ⊆ (loopRunF folder base chunkMs duration tr fs l).1)
    ∨ (∃ c, e = .os c ∧ ∃ i ∈ l,
        (fs (.exportChunk i) = some c ∨ fs (.openChunk i) = some c
          ∨ fs (.writeChunkText i) = some c)
        ∧ (preBlock folder base chunkMs duration i).take 2
            ⊆ (loopRunF folder base chunkMs duration tr fs l).1) := by
  induction l with
  | nil => simp [loopRunF] at h
  | cons i rest ih =>
    rcases hexp : fs (.exportChunk i) with _ | c1
    · rcases hop : fs (.openChunk i) with _ | c2
      · rcases htr : tr i with c3 | text
        · have heq : loopRunF folder base chunkMs duration tr fs (i :: rest)
              = (preBlock folder base chunkMs duration i, .error (.api c3)) := by
            simp only [loopRunF, hexp, hop, htr]
          rw [heq] at h
          have he : ErrF.api c3 = e := by simpa using h
          subst he
          left
          exact ⟨c3, rfl, i, List.mem_cons_self _ _, htr,
            by rw [heq]; exact List.Subset.refl _⟩
        · rcases hwt : fs (.writeChunkText i) with _ | c4
          · rcases hl : loopRunF folder base chunkMs duration tr fs rest with ⟨evs, res⟩
            have heq : loopRunF folder base chunkMs duration tr fs (i :: rest)
                = (preBlock folder base chunkMs duration i
                    ++ postBlock folder base text i ++ evs,
                   match res with
                   | .error e' => .error e'
                   | .ok parts => .ok (mergedPartStr (i + 1) ((i : Int) * chunkMs)
                       (min (((i : Int) + 1) * chunkMs) duration) text :: parts)) := by
              simp only [loopRunF, hexp, hop, htr, hwt, hl]
              cases res <;> rfl
            cases res with
            | ok parts =>
              rw [heq] at h
              simp at h
            | error e' =>
              rw [heq] at h
              have he : e' = e := by simpa using h
              subst he
              have hrec : (loopRunF folder base chunkMs duration tr fs rest).2
                  = .error e' := by rw [hl]
              rcases ih hrec with ⟨c, hec, j, hj, hje, hsub⟩ | ⟨c, hec, j, hj, hje, hsub⟩
              · left
                refine ⟨c, hec, j, List.mem_cons_of_mem _ hj, hje, ?_⟩
                intro x hx
                have hx2 : x ∈ evs := by
                  have := hsub hx
                  rw [hl] at this
                  exact this
                rw [heq]
                simp only [List.mem_append]
                exact Or.inr hx2
              · right
                refine ⟨c, hec, j, List.mem_cons_of_mem _ hj, hje, ?_⟩
                intro x hx
                have hx2 : x ∈ evs := by
                  have := hsub hx
                  rw [hl] at this
                  exact this
                rw [heq]
                simp only [List.mem_append]
                exact Or.inr hx2
          · have heq : loopRunF folder base chunkMs duration tr fs (i :: rest)
                = (preBlock folder base chunkMs duration i, .error (.os c4)) := by
              simp only [loopRunF, hexp, hop, htr, hwt]
            rw [heq] at h
            have he : ErrF.os c4 = e := by simpa using h
            subst he
            right
            refine ⟨c4, rfl, i, List.mem_cons_self _ _, Or.inr (Or.inr hwt), ?_⟩
            rw [heq]
            intro x hx
            simp only [preBlock, List.take, List.mem_cons, List.not_mem_nil,
              or_false] at hx
            rcases hx with rfl | rfl
            · simp [preBlock]
            · simp [preBlock]
      · have heq : loopRunF folder base chunkMs duration tr fs (i :: rest)
            = ((preBlock folder base chunkMs duration i).take 4, .error (.os c2)) := by
          simp only [loopRunF, hexp, hop]
        rw [heq] at h
        have he : ErrF.os c2 = e := by simpa using h
        subst he
        right
        refine ⟨c2, rfl, i, List.mem_cons_self _ _, Or.inr (Or.inl hop), ?_⟩
        rw [heq]
        exact take_two_sub_preBlock folder base chunkMs duration i (by omega)
    · have heq : loopRunF folder base chunkMs duration tr fs (i :: rest)
          = ((preBlock folder base chunkMs duration i).take 2, .error (.os c1)) := by
        simp only [loopRunF, hexp]
      rw [heq] at h
      have he : ErrF.os c1 = e := by simpa using h
      subst he
      right
      exact ⟨c1, rfl, i, List.mem_cons_self _ _, Or.inl hexp,
        by rw [heq]; exact List.Subset.refl _⟩

theorem apiCallCount_take2 (folder base : String) (chunkMs duration : Int)
    (i j : Nat) :
    apiCallCount ((preBlock folder base chunkMs duration i).take 2) j = 0 := by
  simp [preBlock, List.take, apiCallCount, isApiCallTo, List.filter]

theorem apiCallCount_take4 (folder base : String) (chunkMs duration : Int)
    (i j : Nat) :
    apiCallCount ((preBlock folder base chunkMs duration i).take 4) j = 0 := by
  simp [preBlock, List.take, apiCallCount, isApiCallTo, List.filter]

theorem loopRunF_apiCount {folder base : String} {chunkMs duration : Int}
    {tr : Nat → Except String String} {fs : FsOp → Option String}
    (l : List Nat) (j : Nat) :
    apiCallCount (loopRunF folder base chunkMs duration tr fs l).1 j ≤ l.count j := by
  induction l with
  | nil => simp [loopRunF, apiCallCount]
  | cons i rest ih =>
    have hcount : (i :: rest).count j = (if i = j then 1 else 0) + rest.count j := by
      rcases Decidable.em (i = j) with h | h <;>
        simp [List.count_cons, h, Nat.add_comm]
    rcases hexp : fs (.exportChunk i) with _ | c1
    · rcases hop : fs (.openChunk i) with _ | c2
      · rcases htr : tr i with c3 | text
        · have heq : (loopRunF folder base chunkMs duration tr fs (i :: rest)).1
              = preBlock folder base chunkMs duration i := by
            simp only [loopRunF, hexp, hop, htr]
          rw [heq, apiCallCount_preBlock, hcount]
          omega
        · rcases hwt : fs (.writeChunkText i) with _ | c4
          · rcases hl : loopRunF folder base chunkMs duration tr fs rest with ⟨evs, res⟩
            have heq : (loopRunF folder base chunkMs duration tr fs (i :: rest)).1
                = preBlock folder base chunkMs duration i
                    ++ postBlock folder base text i ++ evs := by
              simp only [loopRunF, hexp, hop, htr, hwt, hl]
              cases res <;> rfl
            have hevs : (loopRunF folder base chunkMs duration tr fs rest).1 = evs := by
              rw [hl]
            rw [hevs] at ih
            rw [heq, apiCallCount_append, apiCallCount_append, apiCallCount_preBlock,
              apiCallCount_postBlock, hcount]
            omega
          · have heq : (loopRunF folder base chunkMs duration tr fs (i :: rest)).1
                = preBlock folder base chunkMs duration i := by
              simp only [loopRunF, hexp, hop, htr, hwt]
            rw [heq, apiCallCount_preBlock, hcount]
            omega
      · have heq : (loopRunF folder base chunkMs duration tr fs (i :: rest)).1
            = (preBlock folder base chunkMs duration i).take 4 := by
          simp only [loopRunF, hexp, hop]
        rw [heq, apiCallCount_take4, hcount]
        omega
    · have heq : (loopRunF folder base chunkMs duration tr fs (i :: rest)).1
          = (preBlock folder base chunkMs duration i).take 2 := by
        simp only [loopRunF, hexp]
      rw [heq, apiCallCount_take2, hcount]
      omega

theorem runF_eq_valid {inp : InpF} {ap : String} {rest : List String} {k : Int}
    (hargs : inp.args = ap :: rest) (hparse : parseChunkArg rest = .ok k)
    (hkey : keyOk inp.apiKey = true) (hex : inp.audioExists = true) :
    runF inp = runValidF ap k inp.durationMs inp.tr inp.fs := by
  unfold runF
  rw [hargs]
  simp [hparse, hkey, hex]

theorem runF_shape (inp : InpF) :
    ((runF inp).2 = .error .usage ∧ ∃ s, (runF inp).1 = [Ev.print s])
    ∨ ((runF inp).1 = [] ∧ ((runF inp).2 = .error .config ∨ (runF inp).2 = .error .notFound))
    ∨ (∃ ap rest k, inp.args = ap :: rest ∧ parseChunkArg rest = .ok k
        ∧ runF inp = runValidF ap k inp.durationMs inp.tr inp.fs) := by
  rcases hargs : inp.args with _ | ⟨ap, rest⟩
  · have h : runF inp
        = ([Ev.print "Usage: python transcribe_split.py path/to/audio.mp3 [chunk_minutes]"],
           .error .usage) := by
      unfold runF; rw [hargs]
    left
    rw [h]
    exact ⟨rfl, _, rfl⟩
  · rcases hp : parseChunkArg rest with u | k
    · have h : runF inp
          = ([Ev.print "chunk_minutes must be an integer (e.g. 20)"], .error .usage) := by
        unfold runF; rw [hargs]; simp [hp]
      left
      rw [h]
      exact ⟨rfl, _, rfl⟩
    · cases hkey : keyOk inp.apiKey with
      | false =>
        have h : runF inp = ([], .error .config) := by
          unfold runF; rw [hargs]; simp [hp, hkey]
        right; left
        rw [h]
        exact ⟨rfl, Or.inl rfl⟩
      | true =>
        cases hex : inp.audioExists with
        | false =>
          have h : runF inp = ([], .error .notFound) := by
            unfold runF; rw [hargs]; simp [hp, hkey, hex]
          right; left
          rw [h]
          exact ⟨rfl, Or.inr rfl⟩
        | true =>
          right; right
          exact ⟨ap, rest, k, rfl, hp, runF_eq_valid hargs hp hkey hex⟩

theorem runValidF_shape (ap : String) (k : Int) (dur : Nat)
    (tr : Nat → Except String String) (fs : FsOp → Option String) :
    ((k * 60 * 1000 : Int) = 0
      ∧ runValidF ap k dur tr fs = (preEvents ap dur, .error .zeroDiv))
    ∨ (∃ levs e, loopRunF (pyDirname ap) (stem ap) (k * 60 * 1000) (dur : Int) tr fs
          (List.range (ceilDivInt (dur : Int) (k * 60 * 1000)).toNat) = (levs, .error e)
        ∧ runValidF ap k dur tr fs
            = (preEvents ap dur
                ++ [ Ev.print ("Splitting into "
                       ++ toString (ceilDivInt (dur : Int) (k * 60 * 1000))
                       ++ " chunk(s) of ~" ++ toString k ++ " minutes each.\n") ]
                ++ levs, .error e))
    ∨ (∃ levs parts c, loopRunF (pyDirname ap) (stem ap) (k * 60 * 1000) (dur : Int) tr fs
          (List.range (ceilDivInt (dur : Int) (k * 60 * 1000)).toNat) = (levs, .ok parts)
        ∧ fs .writeMerged = some c
        ∧ runValidF ap k dur tr fs
            = (preEvents ap dur
                ++ [ Ev.print ("Splitting into "
                       ++ toString (ceilDivInt (dur : Int) (k * 60 * 1000))
                       ++ " chunk(s) of ~" ++ toString k ++ " minutes each.\n") ]
                ++ levs, .error (.os c)))
    ∨ (∃ levs parts, loopRunF (pyDirname ap) (stem ap) (k * 60 * 1000) (dur : Int) tr fs
          (List.range (ceilDivInt (dur : Int) (k * 60 * 1000)).toNat) = (levs, .ok parts)
        ∧ fs .writeMerged = none
        ∧ runValidF ap k dur tr fs
            = (preEvents ap dur
                ++ [ Ev.print ("Splitting into "
                       ++ toString (ceilDivInt (dur : Int) (k * 60 * 1000))
                       ++ " chunk(s) of ~" ++ toString k ++ " minutes each.\n") ]
                ++ levs
                ++ [ Ev.writeFile (fullPath (pyDirname ap) (stem ap))
                       (.text (String.intercalate "\n\n" parts))
                   , Ev.print "Done."
                   , Ev.print ("Full transcript saved to: "
                       ++ fullPath (pyDirname ap) (stem ap)) ],
               .ok ())) := by
  by_cases hc : (k * 60 * 1000 : Int) = 0
  · left
    refine ⟨hc, ?_⟩
    unfold runValidF
    rw [if_pos hc]
  · rcases hl : loopRunF (pyDirname ap) (stem ap) (k * 60 * 1000) (dur : Int) tr fs
        (List.range (ceilDivInt (dur : Int) (k * 60 * 1000)).toNat) with ⟨levs, lres⟩
    cases lres with
    | error e =>
      right; left
      refine ⟨levs, e, rfl, ?_⟩
      unfold runValidF
      rw [if_neg hc]
      simp only [hl]
    | ok parts =>
      rcases hm : fs .writeMerged with _ | c
      · right; right; right
        refine ⟨levs, parts, rfl, rfl, ?_⟩
        unfold runValidF
        rw [if_neg hc]
        simp only [hl, hm]
      · right; right; left
        refine ⟨levs, parts, c, rfl, rfl, ?_⟩
        unfold runValidF
        rw [if_neg hc]
        simp only [hl, hm]

/-- C7 (amended). When an I/O error or a transcription-call failure
aborts the run, the unhandled exception surfaces unchanged: its payload
is exactly the failing operation's own message — the message the
transcription oracle returned for the failing chunk, or the `OSError`
message of the failing export, chunk-file open, transcript write or
merged write — with no description of the failing window's index
attached. The window being processed is identifiable only from the
progress output printed before the failure (the chunk's `preBlock`
events for a transcription failure, at least its `=== Part n ... ===`
banner and export print for an I/O failure inside the loop). And the
failing chunk is never retried automatically: no chunk's transcription
call is ever made twice. -/
theorem error_cause_and_no_retry (inp : InpF) :
    (∀ c : String, (runF inp).2 = .error (.api c) →
      ∃ (ap : String) (rest : List String) (k : Int) (i : Nat),
        inp.args = ap :: rest ∧ parseChunkArg rest = .ok k
        ∧ inp.tr i = .error c
        ∧ preBlock (pyDirname ap) (stem ap) (k * 60 * 1000) (inp.durationMs : Int) i
            ⊆ (runF inp).1)
    ∧ (∀ c : String, (runF inp).2 = .error (.os c) →
      ∃ (ap : String) (rest : List String) (k : Int),
        inp.args = ap :: rest ∧ parseChunkArg rest = .ok k
        ∧ ((∃ i, (inp.fs (.exportChunk i) = some c ∨ inp.fs (.openChunk i) = some c
              ∨ inp.fs (.writeChunkText i) = some c)
            ∧ (preBlock (pyDirname ap) (stem ap) (k * 60 * 1000)
                (inp.durationMs : Int) i).take 2 ⊆ (runF inp).1)
          ∨ inp.fs .writeMerged = some c))
    ∧ (∀ i : Nat, apiCallCount ((runF inp).1) i ≤ 1) := by
  refine ⟨?_, ?_, ?_⟩
  · intro c hc
    rcases runF_shape inp with ⟨h, _⟩ | ⟨_, h | h⟩ | ⟨ap, rest, k, hargs, hp, hrun⟩
    · rw [hc] at h; injection h with h2; exact ErrF.noConfusion h2
    · rw [hc] at h; injection h with h2; exact ErrF.noConfusion h2
    · rw [hc] at h; injection h with h2; exact ErrF.noConfusion h2
    · rcases runValidF_shape ap k inp.durationMs inp.tr inp.fs with ⟨hc0, h⟩
          | ⟨levs, e, hl, h⟩ | ⟨levs, parts, c0, hl, hm, h⟩ | ⟨levs, parts, hl, hm, h⟩
      · rw [hrun, h] at hc; simp at hc
      · rw [hrun, h] at hc
        have he : e = ErrF.api c := by simpa using hc
        subst he
        have hrec : (loopRunF (pyDirname ap) (stem ap) (k * 60 * 1000)
            (inp.durationMs : Int) inp.tr inp.fs
            (List.range (ceilDivInt (inp.durationMs : Int) (k * 60 * 1000)).toNat)).2
            = .error (.api c) := by rw [hl]
        rcases loopRunF_err hrec with ⟨c', hec, i, _, hie, hsub⟩ | ⟨c', hec, _, _, _, _⟩
        · have hcc : c' = c := by injection hec with h3; exact h3.symm
          subst hcc
          refine ⟨ap, rest, k, i, hargs, hp, hie, ?_⟩
          intro ev hev
          have hlev : ev ∈ levs := by
            have h2 := hsub hev
            rw [hl] at h2
            exact h2
          rw [hrun, h]
          simp only [List.mem_append]
          exact Or.inr hlev
        · exact absurd hec (by simp)
      · rw [hrun, h] at hc; simp at hc
      · rw [hrun, h] at hc; simp at hc
  · intro c hc
    rcases runF_shape inp with ⟨h, _⟩ | ⟨_, h | h⟩ | ⟨ap, rest, k, hargs, hp, hrun⟩
    · rw [hc] at h; injection h with h2; exact ErrF.noConfusion h2
    · rw [hc] at h; injection h with h2; exact ErrF.noConfusion h2
    · rw [hc] at h; injection h with h2; exact ErrF.noConfusion h2
    · rcases runValidF_shape ap k inp.durationMs inp.tr inp.fs with ⟨hc0, h⟩
          | ⟨levs, e, hl, h⟩ | ⟨levs, parts, c0, hl, hm, h⟩ | ⟨levs, parts, hl, hm, h⟩
      · rw [hrun, h] at hc; simp at hc
      · rw [hrun, h] at hc
        have he : e = ErrF.os c := by simpa using hc
        subst he
        have hrec : (loopRunF (pyDirname ap) (stem ap) (k * 60 * 1000)
            (inp.durationMs : Int) inp.tr inp.fs
            (List.range (ceilDivInt (inp.durationMs : Int) (k * 60 * 1000)).toNat)).2
            = .error (.os c) := by rw [hl]
        rcases loopRunF_err hrec with ⟨c', hec, _, _, _, _⟩
            | ⟨c', hec, i, _, hops, hsub⟩
        · exact absurd hec (by simp)
        · have hcc : c' = c := by injection hec with h3; exact h3.symm
          subst hcc
          refine ⟨ap, rest, k, hargs, hp, Or.inl ⟨i, hops, ?_⟩⟩
          intro ev hev
          have hlev : ev ∈ levs := by
            have h2 := hsub hev
            rw [hl] at h2
            exact h2
          rw [hrun, h]
          simp only [List.mem_append]
          exact Or.inr hlev
      · rw [hrun, h] at hc
        have he : c0 = c := by simpa using hc
        subst he
        exact ⟨ap, rest, k, hargs, hp, Or.inr hm⟩
      · rw [hrun, h] at hc; simp at hc
  · intro i
    rcases runF_shape inp with ⟨_, s, hevs⟩ | ⟨hevs, _⟩ | ⟨ap, rest, k, hargs, hp, hrun⟩
    · rw [hevs]; simp [apiCallCount, isApiCallTo]
    · rw [hevs]; simp [apiCallCount]
    · have hcore : apiCallCount (preEvents ap inp.durationMs) i = 0 := by
        simp [apiCallCount, preEvents, isApiCallTo]
      have hsplit : apiCallCount [Ev.print ("Splitting into "
          ++ toString (ceilDivInt (inp.durationMs : Int) (k * 60 * 1000))
          ++ " chunk(s) of ~" ++ toString k ++ " minutes each.\n")] i = 0 := by
        simp [apiCallCount, isApiCallTo]
      have hrange : ∀ (levs : List Ev) (lres : Except ErrF (List String)),
          loopRunF (pyDirname ap) (stem ap) (k * 60 * 1000)
            (inp.durationMs : Int) inp.tr inp.fs
            (List.range (ceilDivInt (inp.durationMs : Int) (k * 60 * 1000)).toNat)
            = (levs, lres) →
          apiCallCount levs i ≤ 1 := by
        intro levs lres hl
        have h4 := @loopRunF_apiCount (pyDirname ap) (stem ap) (k * 60 * 1000)
          (inp.durationMs : Int) inp.tr inp.fs
          (List.range (ceilDivInt (inp.durationMs : Int) (k * 60 * 1000)).toNat) i
        rw [hl] at h4
        have h5 : (List.range
            (ceilDivInt (inp.durationMs : Int) (k * 60 * 1000)).toNat).count i ≤ 1 :=
          List.nodup_iff_count_le_one.mp (List.nodup_range _) i
        exact le_trans h4 h5
      rcases runValidF_shape ap k inp.durationMs inp.tr inp.fs with ⟨hc0, h⟩
          | ⟨levs, e, hl, h⟩ | ⟨levs, parts, c0, hl, hm, h⟩ | ⟨levs, parts, hl, hm, h⟩
      · rw [hrun, h]
        simp [hcore]
      · rw [hrun, h]
        have h3 := hrange levs (.error e) hl
        rw [apiCallCount_append, apiCallCount_append, hcore, hsplit]
        omega
      · rw [hrun, h]
        have h3 := hrange levs (.ok parts) hl
        rw [apiCallCount_append, apiCallCount_append, hcore, hsplit]
        omega
      · rw [hrun, h]
        have h3 := hrange levs (.ok parts) hl
        have htail : apiCallCount [Ev.writeFile (fullPath (pyDirname ap) (stem ap))
            (.text (String.intercalate "\n\n" parts)), Ev.print "Done.",
            Ev.print ("Full transcript saved to: " ++ fullPath (pyDirname ap) (stem ap))] i
            = 0 := by
          simp [apiCallCount, isApiCallTo]
        rw [apiCallCount_append, apiCallCount_append, apiCallCount_append, hcore, hsplit,
          htail]
        omega

/-- C7 (witness). The amended property instantiated twice: at a run
whose second window's transcription fails with `"boom"` (no file
operation fails), and at a run whose first window's export fails with
`"disk full"`, together with the no-retry bound for the latter. -/
theorem error_cause_and_no_retry_witness :
    (∃ (ap : String) (rest : List String) (k : Int) (i : Nat),
      (InpF.mk ["/tmp/a.mp3", "20"] (some "key") true 3600000
          (fun j => if j = 1 then .error "boom" else .ok "ok") (fun _ => none)).args
        = ap :: rest
      ∧ parseChunkArg rest = .ok k
      ∧ (InpF.mk ["/tmp/a.mp3", "20"] (some "key") true 3600000
          (fun j => if j = 1 then .error "boom" else .ok "ok") (fun _ => none)).tr i
          = .error "boom"
      ∧ preBlock (pyDirname ap) (stem ap) (k * 60 * 1000)
          ((InpF.mk ["/tmp/a.mp3", "20"] (some "key") true 3600000
              (fun j => if j = 1 then .error "boom" else .ok "ok")
              (fun _ => none)).durationMs : Int) i
          ⊆ (runF (InpF.mk ["/tmp/a.mp3", "20"] (some "key") true 3600000
              (fun j => if j = 1 then .error "boom" else .ok "ok") (fun _ => none))).1)
    ∧ (∃ (ap : String) (rest : List String) (k : Int),
      (InpF.mk ["/tmp/a.mp3", "20"] (some "key") true 3600000 (fun _ => .ok "ok")
          (fun op => match op with | .exportChunk 0 => some "disk full" | _ => none)).args
        = ap :: rest
      ∧ parseChunkArg rest = .ok k
      ∧ ((∃ i, ((InpF.mk ["/tmp/a.mp3", "20"] (some "key") true 3600000 (fun _ => .ok "ok")
              (fun op => match op with
                | .exportChunk 0 => some "disk full"
                | _ => none)).fs (.exportChunk i) = some "disk full"
            ∨ (InpF.mk ["/tmp/a.mp3", "20"] (some "key") true 3600000 (fun _ => .ok "ok")
              (fun op => match op with
                | .exportChunk 0 => some "disk full"
                | _ => none)).fs (.openChunk i) = some "disk full"
            ∨ (InpF.mk ["/tmp/a.mp3", "20"] (some "key") true 3600000 (fun _ => .ok "ok")
              (fun op => match op with
                | .exportChunk 0 => some "disk full"
                | _ => none)).fs (.writeChunkText i) = some "disk full")
          ∧ (preBlock (pyDirname ap) (stem ap) (k * 60 * 1000)
              ((InpF.mk ["/tmp/a.mp3", "20"] (some "key") true 3600000 (fun _ => .ok "ok")
                (fun op => match op with
                  | .exportChunk 0 => some "disk full"
                  | _ => none)).durationMs : Int) i).take 2
              ⊆ (runF (InpF.mk ["/tmp/a.mp3", "20"] (some "key") true 3600000
                  (fun _ => .ok "ok")
                  (fun op => match op with
                    | .exportChunk 0 => some "disk full"
                    | _ => none))).1)
        ∨ (InpF.mk ["/tmp/a.mp3", "20"] (some "key") true 3600000 (fun _ => .ok "ok")
            (fun op => match op with
              | .exportChunk 0 => some "disk full"
              | _ => none)).fs .writeMerged = some "disk full"))
    ∧ (∀ i : Nat, apiCallCount ((runF (InpF.mk ["/tmp/a.mp3", "20"] (some "key") true
          3600000 (fun _ => .ok "ok")
          (fun op => match op with
            | .exportChunk 0 => some "disk full"
            | _ => none))).1) i ≤ 1) :=
  ⟨(error_cause_and_no_retry (InpF.mk ["/tmp/a.mp3", "20"] (some "key") true 3600000
      (fun j => if j = 1 then .error "boom" else .ok "ok") (fun _ => none))).1 "boom" rfl,
   (error_cause_and_no_retry (InpF.mk ["/tmp/a.mp3", "20"] (some "key") true 3600000
      (fun _ => .ok "ok")
      (fun op => match op with
        | .exportChunk 0 => some "disk full"
        | _ => none))).2.1 "disk full" rfl,
   (error_cause_and_no_retry (InpF.mk ["/tmp/a.mp3", "20"] (some "key") true 3600000
      (fun _ => .ok "ok")
      (fun op => match op with
        | .exportChunk 0 => some "disk full"
        | _ => none))).2.2⟩

/-- C7 (counterexample). The surfaced error does not include the
failing window's index, for either trigger of the original claim. Two
runs whose transcription fails at different windows (the first makes
one transcription call, the second two) surface exactly the same error
value; and two runs whose chunk export fails at different windows (only
the second has exported window 1's audio) likewise surface exactly the
same `OSError` value. -/
theorem error_lacks_window_index :
    (run (Inp.mk ["/tmp/a.mp3", "20"] (some "key") true 3600000
        (fun _ => .error "boom"))).2 = .error (.api "boom")
    ∧ (run (Inp.mk ["/tmp/a.mp3", "20"] (some "key") true 3600000
        (fun j => if j = 1 then .error "boom" else .ok "ok"))).2 = .error (.api "boom")
    ∧ Ev.apiCall 1 ∉ (run (Inp.mk ["/tmp/a.mp3", "20"] (some "key") true 3600000
        (fun _ => .error "boom"))).1
    ∧ Ev.apiCall 1 ∈ (run (Inp.mk ["/tmp/a.mp3", "20"] (some "key") true 3600000
        (fun j => if j = 1 then .error "boom" else .ok "ok"))).1
    ∧ (run (Inp.mk ["/tmp/a.mp3", "20"] (some "key") true 3600000
        (fun _ => .error "boom"))).2
      = (run (Inp.mk ["/tmp/a.mp3", "20"] (some "key") true 3600000
          (fun j => if j = 1 then .error "boom" else .ok "ok"))).2
    ∧ (runF (InpF.mk ["/tmp/a.mp3", "20"] (some "key") true 3600000 (fun _ => .ok "ok")
        (fun op => match op with
          | .exportChunk 0 => some "disk full"
          | _ => none))).2 = .error (.os "disk full")
    ∧ (runF (InpF.mk ["/tmp/a.mp3", "20"] (some "key") true 3600000 (fun _ => .ok "ok")
        (fun op => match op with
          | .exportChunk 1 => some "disk full"
          | _ => none))).2 = .error (.os "disk full")
    ∧ Ev.writeFile "/tmp/a_part_1.mp3" (.audioSlice 0 1200000)
        ∉ (runF (InpF.mk ["/tmp/a.mp3", "20"] (some "key") true 3600000 (fun _ => .ok "ok")
            (fun op => match op with
              | .exportChunk 0 => some "disk full"
              | _ => none))).1
    ∧ Ev.writeFile "/tmp/a_part_1.mp3" (.audioSlice 0 1200000)
        ∈ (runF (InpF.mk ["/tmp/a.mp3", "20"] (some "key") true 3600000 (fun _ => .ok "ok")
            (fun op => match op with
              | .exportChunk 1 => some "disk full"
              | _ => none))).1
    ∧ (runF (InpF.mk ["/tmp/a.mp3", "20"] (some "key") true 3600000 (fun _ => .ok "ok")
        (fun op => match op with
          | .exportChunk 0 => some "disk full"
          | _ => none))).2
      = (runF (InpF.mk ["/tmp/a.mp3", "20"] (some "key") true 3600000 (fun _ => .ok "ok")
          (fun op => match op with
            | .exportChunk 1 => some "disk full"
            | _ => none))).2 :=
  ⟨rfl, rfl, by decide, by decide, rfl, rfl, rfl, by decide, by decide, rfl⟩

/-! ## Agreement of the two models -/

theorem loopRunF_total {folder base : String} {chunkMs duration : Int}
    {tr : Nat → Except String String} {fs : FsOp → Option String}
    (hfs : ∀ op, fs op = none) (l : List Nat) :
    loopRunF folder base chunkMs duration tr fs l
      = ((loopRun folder base chunkMs duration tr l).1,
         (loopRun folder base chunkMs duration tr l).2.mapError liftErr) := by
  induction l with
  | nil => rfl
  | cons i rest ih =>
    rcases htr : tr i with c | text
    · have h1 : loopRunF folder base chunkMs duration tr fs (i :: rest)
          = (preBlock folder base chunkMs duration i, .error (.api c)) := by
        simp only [loopRunF, hfs (.exportChunk i), hfs (.openChunk i), htr]
      have h2 : loopRun folder base chunkMs duration tr (i :: rest)
          = (preBlock folder base chunkMs duration i, .error (.api c)) := by
        simp only [loopRun, htr]
      rw [h1, h2]
      rfl
    · rcases hl : loopRun folder base chunkMs duration tr rest with ⟨evs, res⟩
      rw [hl] at ih
      cases res with
      | error e =>
        have h1 : loopRunF folder base chunkMs duration tr fs (i :: rest)
            = (preBlock folder base chunkMs duration i
                ++ postBlock folder base text i ++ evs, .error (liftErr e)) := by
          simp only [loopRunF, hfs (.exportChunk i), hfs (.openChunk i), htr,
            hfs (.writeChunkText i), ih, Except.mapError]
        have h2 : loopRun folder base chunkMs duration tr (i :: rest)
            = (preBlock folder base chunkMs duration i
                ++ postBlock folder base text i ++ evs, .error e) := by
          simp only [loopRun, htr, hl]
        rw [h1, h2]
        rfl
      | ok parts =>
        have h1 : loopRunF folder base chunkMs duration tr fs (i :: rest)
            = (preBlock folder base chunkMs duration i
                ++ postBlock folder base text i ++ evs,
               .ok (mergedPartStr (i + 1) ((i : Int) * chunkMs)
                 (min (((i : Int) + 1) * chunkMs) duration) text :: parts)) := by
          simp only [loopRunF, hfs (.exportChunk i), hfs (.openChunk i), htr,
            hfs (.writeChunkText i), ih, Except.mapError]
        have h2 : loopRun folder base chunkMs duration tr (i :: rest)
            = (preBlock folder base chunkMs duration i
                ++ postBlock folder base text i ++ evs,
               .ok (mergedPartStr (i + 1) ((i : Int) * chunkMs)
                 (min (((i : Int) + 1) * chunkMs) duration) text :: parts)) := by
          simp only [loopRun, htr, hl]
        rw [h1, h2]
        rfl

/-- Holds the refinement together: when no file operation fails, the
refined run produces exactly the base run's trace and outcome. -/
theorem runF_total (inp : InpF) (hfs : ∀ op, inp.fs op = none) :
    runF inp
      = ((run (Inp.mk inp.args inp.apiKey inp.audioExists inp.durationMs inp.tr)).1,
         (run (Inp.mk inp.args inp.apiKey inp.audioExists inp.durationMs
             inp.tr)).2.mapError liftErr) := by
  rcases hargs : inp.args with _ | ⟨ap, rest⟩
  · have h1 : runF inp
        = ([Ev.print "Usage: python transcribe_split.py path/to/audio.mp3 [chunk_minutes]"],
           .error .usage) := by
      unfold runF; rw [hargs]
    have h2 : run (Inp.mk [] inp.apiKey inp.audioExists inp.durationMs inp.tr)
        = ([Ev.print "Usage: python transcribe_split.py path/to/audio.mp3 [chunk_minutes]"],
           .error .usage) := rfl
    rw [h1, h2]
    rfl
  · rcases hp : parseChunkArg rest with u | k
    · have h1 : runF inp
          = ([Ev.print "chunk_minutes must be an integer (e.g. 20)"], .error .usage) := by
        unfold runF; rw [hargs]; simp [hp]
      have h2 : run (Inp.mk (ap :: rest) inp.apiKey inp.audioExists inp.durationMs inp.tr)
          = ([Ev.print "chunk_minutes must be an integer (e.g. 20)"], .error .usage) := by
        unfold run; simp [hp]
      rw [h1, h2]
      rfl
    · cases hkey : keyOk inp.apiKey with
      | false =>
        have h1 : runF inp = ([], .error .config) := by
          unfold runF; rw [hargs]; simp [hp, hkey]
        have h2 : run (Inp.mk (ap :: rest) inp.apiKey inp.audioExists inp.durationMs inp.tr)
            = ([], .error .config) := by
          unfold run; simp [hp, hkey]
        rw [h1, h2]
        rfl
      | true =>
        cases hex : inp.audioExists with
        | false =>
          have h1 : runF inp = ([], .error .notFound) := by
            unfold runF; rw [hargs]; simp [hp, hkey, hex]
          have h2 : run (Inp.mk (ap :: rest) inp.apiKey false inp.durationMs
              inp.tr) = ([], .error .notFound) := by
            unfold run; simp [hp, hkey]
          rw [h1, h2]
          rfl
        | true =>
          have h1 : runF inp = runValidF ap k inp.durationMs inp.tr inp.fs :=
            runF_eq_valid hargs hp hkey hex
          have h2 : run (Inp.mk (ap :: rest) inp.apiKey true inp.durationMs
              inp.tr) = runValid ap k inp.durationMs inp.tr :=
            @run_eq_valid (Inp.mk (ap :: rest) inp.apiKey true inp.durationMs
              inp.tr) ap rest k rfl hp hkey rfl
          rw [h1, h2]
          unfold runValidF runValid
          by_cases hc : (k * 60 * 1000 : Int) = 0
          · rw [if_pos hc, if_pos hc]
            rfl
          · rw [if_neg hc, if_neg hc]
            simp only [loopRunF_total hfs]
            rcases hl : loopRun (pyDirname ap) (stem ap) (k * 60 * 1000)
                (inp.durationMs : Int) inp.tr
                (List.range (ceilDivInt (inp.durationMs : Int)
                  (k * 60 * 1000)).toNat) with ⟨evs, res⟩
            cases res with
            | error e => simp only [hl]; rfl
            | ok parts => simp only [hl, hfs FsOp.writeMerged]; rfl

end TranscribeSplit
